import Mathlib

/-!
Shallow embedding of the `envutil` package (files `envutil/env.go` and
`envutil/namespace.go`): a typed environment-variable binding utility.

Strings are Lean `String`s; the process environment is a pure mapping
`String → Option String` (`os.LookupEnv`).  Go standard-library helpers used
by the package (`strings.ToUpper`, `strings.TrimSpace`, `strconv.ParseInt`,
`net.ParseIP`, `time.Parse`, ...) are modelled as executable Lean functions
over their ASCII/IPv4 fragments; `strconv.ParseFloat`/`FormatFloat` and
`time.ParseDuration`/`Duration.String` are modelled parametrically through
their documented contracts, since the package only composes them.
-/

namespace Turret

/-- Characters removed by Go `strings.TrimSpace` (ASCII white space fragment
of `unicode.IsSpace`). -/
def isSpaceChar (c : Char) : Bool :=
  c = ' ' || c = '\t' || c = '\n' || c = '\r' || c = Char.ofNat 11 || c = Char.ofNat 12

def trimLeftList (l : List Char) : List Char := l.dropWhile isSpaceChar

def trimRightList (l : List Char) : List Char := (l.reverse.dropWhile isSpaceChar).reverse

/-- Model of Go `strings.TrimSpace` (ASCII fragment). -/
def goTrimSpace (s : String) : String := String.mk (trimLeftList (trimRightList s.data))

/-- Model of Go `unicode.ToUpper` on one character (ASCII fragment). -/
def upChar (c : Char) : Char :=
  if 97 ≤ c.toNat ∧ c.toNat ≤ 122 then Char.ofNat (c.toNat - 32) else c

/-- Model of Go `unicode.ToLower` on one character (ASCII fragment). -/
def loChar (c : Char) : Char :=
  if 65 ≤ c.toNat ∧ c.toNat ≤ 90 then Char.ofNat (c.toNat + 32) else c

/-- Model of Go `strings.ToUpper` (ASCII fragment). -/
def goToUpper (s : String) : String := String.mk (s.data.map upChar)

/-- Model of Go `strings.ToLower` (ASCII fragment). -/
def goToLower (s : String) : String := String.mk (s.data.map loChar)

def replChar (c : Char) : Char := if c = ' ' then '_' else c

/-- Model of Go `strings.ReplaceAll s " " "_"` (single-character pattern, as in
the only call sites). -/
def goReplaceSpace (s : String) : String := String.mk (s.data.map replChar)

/-- The decimal digit character for `n < 10`. -/
def digitChar : Nat → Char
  | 0 => '0' | 1 => '1' | 2 => '2' | 3 => '3' | 4 => '4'
  | 5 => '5' | 6 => '6' | 7 => '7' | 8 => '8' | 9 => '9'
  | _ => '*'

/-- The decimal value of a digit character. -/
def charDigit (c : Char) : Option Nat :=
  if 48 ≤ c.toNat ∧ c.toNat ≤ 57 then some (c.toNat - 48) else none

def natToDigitsAux : Nat → Nat → List Char → List Char
  | 0, _, acc => acc
  | fuel+1, n, acc =>
    if n < 10 then digitChar n :: acc
    else natToDigitsAux fuel (n / 10) (digitChar (n % 10) :: acc)

/-- The decimal digits of `n`, most significant first (model of the Go
standard decimal formatting of nonnegative integers). -/
def natToDigits (n : Nat) : List Char := natToDigitsAux (n + 1) n []

def parseDigitsAux : Nat → List Char → Option Nat
  | acc, [] => some acc
  | acc, c :: cs =>
    match charDigit c with
    | some d => parseDigitsAux (acc * 10 + d) cs
    | none => none

/-- Parse a nonempty all-digit string as a natural number (the digit-reading
core shared by the Go `strconv` integer parsers). -/
def parseDigits : List Char → Option Nat
  | [] => none
  | c :: cs => parseDigitsAux 0 (c :: cs)

/-- Model of Go `strconv.FormatInt i 10` for `int64` values (the model uses
unbounded `Int`; Go's type confines callers to the 64-bit range). -/
def formatInt (i : Int) : String :=
  if i < 0 then String.mk ('-' :: natToDigits i.natAbs) else String.mk (natToDigits i.toNat)

/-- Model of Go `strconv.FormatUint u 10` (unbounded `Nat` in the model). -/
def formatUint (u : Nat) : String := String.mk (natToDigits u)

def parseInt64List : List Char → Option Int
  | [] => none
  | c :: cs =>
    match parseDigits (if c = '-' ∨ c = '+' then cs else c :: cs) with
    | none => none
    | some n =>
      if c = '-' then if n ≤ 2 ^ 63 then some (-(n : Int)) else none
      else if n ≤ 2 ^ 63 - 1 then some (n : Int) else none

/-- Model of Go `strconv.ParseInt s 10 64`: optional single sign, one or more
decimal digits, nothing else; out-of-range values are errors (`none`). -/
def parseInt64 (s : String) : Option Int := parseInt64List s.data

/-- Model of Go `strconv.ParseUint s 10 64`: decimal digits only (no sign),
64-bit range check. -/
def parseUint64 (s : String) : Option Nat :=
  match parseDigits s.data with
  | none => none
  | some n => if n ≤ 2 ^ 64 - 1 then some n else none

/-- Model of Go `strconv.FormatBool`. -/
def formatBool (b : Bool) : String := if b then "true" else "false"

/-- The acceptance mapping of `BindBool`'s switch: the lowered, trimmed value
`"1"`/`"true"` means `true`, `"0"`/`"false"` means `false`, anything else is a
parse failure. -/
def parseGoBool (s : String) : Option Bool :=
  let w := goToLower (goTrimSpace s)
  if w = "1" ∨ w = "true" then some true
  else if w = "0" ∨ w = "false" then some false
  else none

/-- Model of a Go `net.IP` holding an IPv4 address, as four octets.  The model
identifies the 4-byte and the 16-byte (IPv4-in-IPv6) representations of the
same address, which Go's `net.IP.Equal` treats as equal. -/
structure GoIP where
  o1 : Nat
  o2 : Nat
  o3 : Nat
  o4 : Nat
deriving DecidableEq

/-- Model of Go `net.IP.String` for IPv4 addresses: dotted decimal. -/
def ipString (ip : GoIP) : String :=
  String.mk (natToDigits ip.o1 ++ '.' :: natToDigits ip.o2 ++ '.' :: natToDigits ip.o3
    ++ '.' :: natToDigits ip.o4)

def splitOnChar (sep : Char) : List Char → List (List Char)
  | [] => [[]]
  | c :: cs =>
    if c = sep then [] :: splitOnChar sep cs
    else
      match splitOnChar sep cs with
      | [] => [[c]]
      | h :: t => (c :: h) :: t

/-- Parse one dotted-decimal octet: digits only, value at most 255, no
leading zero (Go rejects leading zeros since 1.17). -/
def parseOctet (l : List Char) : Option Nat :=
  match parseDigits l with
  | none => none
  | some n =>
    if n ≤ 255 ∧ (l.length = 1 ∨ l.head? ≠ some '0') then some n else none

def parseIPList (l : List Char) : Option GoIP :=
  match (splitOnChar '.' l).map parseOctet with
  | [some a, some b, some c, some d] => some ⟨a, b, c, d⟩
  | _ => none

/-- Model of Go `net.ParseIP` restricted to its IPv4 dotted-decimal branch.
On strings containing no `:` the model is exact: Go routes such strings to
its IPv4 parser, which accepts precisely four dot-separated decimal octets,
each at most 255 with no leading zero, and rejects everything else.  Strings
containing `:` (IPv6 literals) are outside the model's scope, so theorems
whose hypotheses range over arbitrary strings restrict to `:`-free input. -/
def parseIP (s : String) : Option GoIP := parseIPList s.data

/-- Model of a Go `*net.IPNet` with a canonical CIDR mask of `ones` bits. -/
structure GoIPNet where
  ip : GoIP
  ones : Nat
deriving DecidableEq

/-- The value of one octet after applying `bits` mask bits (`0 ≤ bits ≤ 8`). -/
def maskOctet (o bits : Nat) : Nat := o / 2 ^ (8 - bits) * 2 ^ (8 - bits)

/-- The number of mask bits that fall on octet `idx` for a `/ones` mask. -/
def octetBits (ones idx : Nat) : Nat := min 8 (ones - 8 * idx)

/-- The network address: the IP with its host bits cleared. -/
def maskIP (ones : Nat) (ip : GoIP) : GoIP :=
  ⟨maskOctet ip.o1 (octetBits ones 0), maskOctet ip.o2 (octetBits ones 1),
   maskOctet ip.o3 (octetBits ones 2), maskOctet ip.o4 (octetBits ones 3)⟩

/-- Model of Go `net.IPNet.String` for a canonical IPv4 CIDR mask:
`address/ones`. -/
def ipnetString (n : GoIPNet) : String :=
  ipString n.ip ++ "/" ++ String.mk (natToDigits n.ones)

/-- Model of Go `net.ParseCIDR` restricted to IPv4: splits at the first `/`,
parses address and prefix length, and returns the masked network (the
`*net.IPNet` result, whose IP is the network address).  As with `parseIP`,
the model is exact on strings containing no `:`; IPv6 CIDRs are outside its
scope, so theorems whose hypotheses range over arbitrary strings restrict to
`:`-free input. -/
def parseCIDR (s : String) : Option GoIPNet :=
  match splitOnChar '/' s.data with
  | [ipPart, onesPart] =>
    match parseIPList ipPart, parseDigits onesPart with
    | some ip, some n => if n ≤ 32 then some ⟨maskIP n ip, n⟩ else none
    | _, _ => none
  | _ => none

/-- Model of a Go `time.Time` as the broken-down calendar value its formatting
and parsing work with.  The model scope excludes the monotonic-clock reading
and represents the zone as an offset in minutes plus an abbreviation. -/
structure GoTime where
  year : Nat
  month : Nat
  day : Nat
  hour : Nat
  minute : Nat
  second : Nat
  nsec : Nat
  offMin : Int
  zone : String
deriving DecidableEq

/-- The calendar ranges every Go `time.Time` decomposes into (model scope:
four-digit CE years; zone offsets within the real-world ±18h band). -/
def GoTime.WF (t : GoTime) : Prop :=
  1 ≤ t.year ∧ t.year ≤ 9999 ∧ 1 ≤ t.month ∧ t.month ≤ 12 ∧ 1 ≤ t.day ∧ t.day ≤ 31 ∧
    t.hour ≤ 23 ∧ t.minute ≤ 59 ∧ t.second ≤ 59 ∧ t.nsec < 1000000000 ∧
    -(18 * 60) ≤ t.offMin ∧ t.offMin ≤ 18 * 60

instance (t : GoTime) : Decidable t.WF := by
  unfold GoTime.WF
  infer_instance

/-- Zero-pad the decimal digits of `n` on the left to width `w` (Go's numeric
padding in time layouts). -/
def padDigits (w n : Nat) : List Char :=
  List.replicate (w - (natToDigits n).length) '0' ++ natToDigits n

def stripZerosRight (l : List Char) : List Char :=
  (l.reverse.dropWhile (fun c => c = '0')).reverse

/-- The fractional-second part of Go `time.Time.String`: empty when `nsec` is
zero, otherwise a dot and the 9-digit nanosecond field with trailing zeros
removed. -/
def fracList (nsec : Nat) : List Char :=
  if nsec = 0 then [] else '.' :: stripZerosRight (padDigits 9 nsec)

/-- The `-0700` element of Go `time.Time.String`: sign then `hhmm`. -/
def offsetList (offMin : Int) : List Char :=
  (if offMin < 0 then '-' else '+')
    :: (padDigits 2 (offMin.natAbs / 60) ++ padDigits 2 (offMin.natAbs % 60))

/-- Model of Go `time.Time.String`, the layout
`"2006-01-02 15:04:05.999999999 -0700 MST"` (no monotonic-clock suffix). -/
def timeGoString (t : GoTime) : String :=
  String.mk (padDigits 4 t.year ++ '-' :: (padDigits 2 t.month ++ '-'
    :: (padDigits 2 t.day ++ ' ' :: (padDigits 2 t.hour ++ ':'
    :: (padDigits 2 t.minute ++ ':' :: (padDigits 2 t.second ++ fracList t.nsec
      ++ ' ' :: (offsetList t.offMin ++ ' ' :: t.zone.data)))))))

def expectCh (c : Char) : List Char → Option (List Char)
  | [] => none
  | x :: xs => if x = c then some xs else none

def take2Digits : List Char → Option (Nat × List Char)
  | a :: b :: rest =>
    match charDigit a, charDigit b with
    | some x, some y => some (x * 10 + y, rest)
    | _, _ => none
  | _ => none

def take4Digits : List Char → Option (Nat × List Char)
  | a :: b :: c :: d :: rest =>
    match charDigit a, charDigit b, charDigit c, charDigit d with
    | some w, some x, some y, some z => some (((w * 10 + x) * 10 + y) * 10 + z, rest)
    | _, _, _, _ => none
  | _ => none

def digitsVal (l : List Char) : Nat :=
  l.foldl (fun a c => a * 10 + ((charDigit c).getD 0)) 0

/-- Optional fractional seconds of the RFC 3339 grammar: a dot followed by at
least one digit; the value is the nanosecond count of the first nine digits. -/
def parseFrac : List Char → Option (Nat × List Char)
  | '.' :: rest =>
    let ds := rest.takeWhile (fun c => (charDigit c).isSome)
    if ds.isEmpty then none
    else some (digitsVal (ds.take 9) * 10 ^ (9 - (ds.take 9).length), rest.drop ds.length)
  | l => some (0, l)

/-- The zone suffix of the RFC 3339 grammar: `Z` or `±hh:mm`, ending the
input.  `Z` denotes UTC; a numeric offset yields a fixed zone with an empty
abbreviation, as in Go. -/
def parseZone : List Char → Option (Int × String)
  | ['Z'] => some (0, "UTC")
  | s :: h1 :: h2 :: ':' :: m1 :: m2 :: [] =>
    if s = '+' ∨ s = '-' then
      match charDigit h1, charDigit h2, charDigit m1, charDigit m2 with
      | some a, some b, some c, some d =>
        let hh := a * 10 + b
        let mm := c * 10 + d
        if hh ≤ 23 ∧ mm ≤ 59 then
          some (if s = '-' then -((hh * 60 + mm : Nat) : Int) else ((hh * 60 + mm : Nat) : Int), "")
        else none
      | _, _, _, _ => none
    else none
  | _ => none

def isLeap (y : Nat) : Bool := y % 4 = 0 && (y % 100 ≠ 0 || y % 400 = 0)

def daysIn (y m : Nat) : Nat :=
  if m = 2 then (if isLeap y then 29 else 28)
  else if m = 4 ∨ m = 6 ∨ m = 9 ∨ m = 11 then 30
  else 31

/-- The RFC 3339 grammar `yyyy-mm-ddThh:mm:ss[.fff...](Z|±hh:mm)` with
calendar range checks, over a character list. -/
def timeParseList (l : List Char) : Option GoTime :=
  match take4Digits l with
  | none => none
  | some (y, l0) =>
  match expectCh '-' l0 with
  | none => none
  | some l1 =>
  match take2Digits l1 with
  | none => none
  | some (mo, l2) =>
  match expectCh '-' l2 with
  | none => none
  | some l3 =>
  match take2Digits l3 with
  | none => none
  | some (da, l4) =>
  match expectCh 'T' l4 with
  | none => none
  | some l5 =>
  match take2Digits l5 with
  | none => none
  | some (hh, l6) =>
  match expectCh ':' l6 with
  | none => none
  | some l7 =>
  match take2Digits l7 with
  | none => none
  | some (mi, l8) =>
  match expectCh ':' l8 with
  | none => none
  | some l9 =>
  match take2Digits l9 with
  | none => none
  | some (ss, l10) =>
  match parseFrac l10 with
  | none => none
  | some (ns, l11) =>
  match parseZone l11 with
  | none => none
  | some (off, zn) =>
  if 1 ≤ mo ∧ mo ≤ 12 ∧ 1 ≤ da ∧ da ≤ daysIn y mo
      ∧ hh ≤ 23 ∧ mi ≤ 59 ∧ ss ≤ 59 then
    some ⟨y, mo, da, hh, mi, ss, ns, off, zn⟩
  else none

/-- Model of Go `time.Parse time.RFC3339Nano s`. -/
def timeParseRFC3339Nano (s : String) : Option GoTime := timeParseList s.data

/-- The time-of-day-and-zone part of the `time.Time.String` layout. -/
def timeTail (t : GoTime) : List Char :=
  padDigits 2 t.hour ++ ':' :: (padDigits 2 t.minute ++ ':'
    :: (padDigits 2 t.second ++ fracList t.nsec
      ++ ' ' :: (offsetList t.offMin ++ ' ' :: t.zone.data)))

/-- The date part of the `time.Time.String` layout, with the separating
space. -/
def timeHead (t : GoTime) : List Char :=
  padDigits 4 t.year ++ '-' :: (padDigits 2 t.month ++ '-' :: (padDigits 2 t.day ++ [' ']))

/-- `envutil.Env`: the binding record, with the derived variable `Name` and
the resolved string `Value` (zero value: empty string). -/
structure Env where
  Name : String
  Value : String := ""
deriving DecidableEq

def hexDigit (n : Nat) : Char :=
  if n < 10 then digitChar n
  else if n = 10 then 'a' else if n = 11 then 'b' else if n = 12 then 'c'
  else if n = 13 then 'd' else if n = 14 then 'e' else 'f'

/-- Escaping of one character inside a quoted Go string (ASCII fragment of
`strconv.Quote`). -/
def quoteChar (c : Char) : List Char :=
  if c = '"' then ['\\', '"']
  else if c = '\\' then ['\\', '\\']
  else if c = '\n' then ['\\', 'n']
  else if c = '\t' then ['\\', 't']
  else if c = '\r' then ['\\', 'r']
  else if c = Char.ofNat 7 then ['\\', 'a']
  else if c = Char.ofNat 8 then ['\\', 'b']
  else if c = Char.ofNat 11 then ['\\', 'v']
  else if c = Char.ofNat 12 then ['\\', 'f']
  else if 32 ≤ c.toNat ∧ c.toNat ≤ 126 then [c]
  else ['\\', 'x', hexDigit (c.toNat / 16 % 16), hexDigit (c.toNat % 16)]

/-- Model of Go `strconv.Quote` (ASCII fragment): wrap in double quotes,
escaping the content. -/
def goQuote (s : String) : String :=
  String.mk ('"' :: (s.data.map quoteChar).flatten ++ ['"'])

/-- Model of `strings.Contains e.Value "\""` (single-character pattern). -/
def containsQuote (s : String) : Bool := s.data.contains '"'

/-- `Env.String` from `env.go`: `NAME=value`, quoting the value exactly when
it contains a double-quote character. -/
def envString (e : Env) : String :=
  if containsQuote e.Value then e.Name ++ "=" ++ goQuote e.Value
  else e.Name ++ "=" ++ e.Value

/-- `envutil.Namespace`: a binder owning the normalized prefix `s`. -/
structure Namespace where
  s : String

/-- `Namespace.new` from `namespace.go`: the record whose name upper-cases the
`_`-join of the prefix with the space-normalized label. -/
def Namespace.new (n : Namespace) (name : String) : Env :=
  { Name := goToUpper (n.s ++ "_" ++ goReplaceSpace name), Value := "" }

/-- `NewNamespace` from `namespace.go`. -/
def NewNamespace (s : String) : Namespace := ⟨goToUpper (goReplaceSpace s)⟩

/-- The process environment, a pure name-to-string mapping (`os.LookupEnv`). -/
abbrev EnvMap := String → Option String

/-- Parametric model of the `float64` fragment of Go `strconv` used by
`BindFloat`: `format` stands for `strconv.FormatFloat x 'f' (-1) 64` and
`parse` for `strconv.ParseFloat s 64`.  The proposition fields are the
library's documented contract: shortest-round-trip formatting re-parses to
the same value, the empty string is a syntax error, and no accepted numeral
contains a space character. -/
structure GoFloatLib where
  F : Type
  format : F → String
  parse : String → Option F
  round_trip : ∀ x, parse (format x) = some x
  parse_empty : parse "" = none
  rejects_space : ∀ s, ' ' ∈ s.data → parse s = none

/-- Parametric model of Go `time.Duration` rendering/parsing used by
`BindDuration`: `format` stands for `Duration.String` and `parse` for
`time.ParseDuration`.  The proposition fields are the library's documented
contract: `ParseDuration` accepts `Duration.String` output and returns the
same value, the empty string is an error, and formatted output carries no
surrounding white space. -/
structure GoDurationLib where
  D : Type
  format : D → String
  parse : String → Option D
  round_trip : ∀ x, parse (format x) = some x
  parse_empty : parse "" = none
  format_trim : ∀ x, goTrimSpace (format x) = format x

/-- A small concrete realization of the float-library contract, used to
instantiate theorems that quantify over `GoFloatLib`. -/
def boolFloatLib : GoFloatLib where
  F := Bool
  format := fun b => if b then "1" else "0"
  parse := fun s => if s = "1" then some true else if s = "0" then some false else none
  round_trip := by intro x; cases x <;> decide
  parse_empty := by decide
  rejects_space := by
    intro s hs
    have h1 : ¬ s = "1" := by rintro rfl; revert hs; decide
    have h0 : ¬ s = "0" := by rintro rfl; revert hs; decide
    simp [h1, h0]

/-- A small concrete realization of the duration-library contract, used to
instantiate theorems that quantify over `GoDurationLib`. -/
def unitDurationLib : GoDurationLib where
  D := Unit
  format := fun _ => "0s"
  parse := fun s => if s = "0s" then some () else none
  round_trip := by intro x; cases x; decide
  parse_empty := by decide
  format_trim := by intro x; cases x; decide

/-- `BindString` from `namespace.go`. -/
def bindString (env : EnvMap) (n : Namespace) (name : String) (_ptr : String)
    (defs : List String) : String × Env :=
  let e := n.new name
  let e :=
    match env e.Name with
    | some val => { e with Value := val }
    | none =>
      match defs with
      | d :: _ => { e with Value := d }
      | [] => e
  (e.Value, e)

/-- `BindInt` from `namespace.go`. -/
def bindInt (env : EnvMap) (n : Namespace) (name : String) (ptr : Int)
    (defs : List Int) : Int × Env :=
  let e := n.new name
  let e :=
    match env e.Name with
    | some val => { e with Value := val }
    | none =>
      match defs with
      | d :: _ => { e with Value := formatInt d }
      | [] => e
  match parseInt64 e.Value with
  | none =>
    match defs with
    | d :: _ => (d, e)
    | [] => (ptr, e)
  | some i => (i, e)

/-- `BindUint` from `namespace.go`. -/
def bindUint (env : EnvMap) (n : Namespace) (name : String) (ptr : Nat)
    (defs : List Nat) : Nat × Env :=
  let e := n.new name
  let e :=
    match env e.Name with
    | some val => { e with Value := val }
    | none =>
      match defs with
      | d :: _ => { e with Value := formatUint d }
      | [] => e
  match parseUint64 e.Value with
  | none =>
    match defs with
    | d :: _ => (d, e)
    | [] => (ptr, e)
  | some i => (i, e)

/-- `BindFloat` from `namespace.go`, over the parametric float library. -/
def bindFloat (L : GoFloatLib) (env : EnvMap) (n : Namespace) (name : String)
    (ptr : L.F) (defs : List L.F) : L.F × Env :=
  let e := n.new name
  let e :=
    match env e.Name with
    | some val => { e with Value := val }
    | none =>
      match defs with
      | d :: _ => { e with Value := L.format d }
      | [] => e
  match L.parse e.Value with
  | none =>
    match defs with
    | d :: _ => (d, e)
    | [] => (ptr, e)
  | some x => (x, e)

/-- `BindBool` from `namespace.go`: the switch over the lowered, trimmed
value is `parseGoBool`. -/
def bindBool (env : EnvMap) (n : Namespace) (name : String) (ptr : Bool)
    (defs : List Bool) : Bool × Env :=
  let e := n.new name
  let e :=
    match env e.Name with
    | some val => { e with Value := val }
    | none =>
      match defs with
      | d :: _ => { e with Value := formatBool d }
      | [] => e
  match parseGoBool e.Value with
  | some b => (b, e)
  | none =>
    match defs with
    | d :: _ => (d, e)
    | [] => (ptr, e)

/-- `BindIP` from `namespace.go`. -/
def bindIP (env : EnvMap) (n : Namespace) (name : String) (ptr : GoIP)
    (defs : List GoIP) : GoIP × Env :=
  let e := n.new name
  let e :=
    match env e.Name with
    | some val => { e with Value := val }
    | none =>
      match defs with
      | d :: _ => { e with Value := ipString d }
      | [] => e
  match parseIP (goTrimSpace e.Value) with
  | none =>
    match defs with
    | d :: _ => (d, e)
    | [] => (ptr, e)
  | some v => (v, e)

/-- `BindIPNet` from `namespace.go`: on success the destination receives the
parsed network `*v`. -/
def bindIPNet (env : EnvMap) (n : Namespace) (name : String) (ptr : GoIPNet)
    (defs : List GoIPNet) : GoIPNet × Env :=
  let e := n.new name
  let e :=
    match env e.Name with
    | some val => { e with Value := val }
    | none =>
      match defs with
      | d :: _ => { e with Value := ipnetString d }
      | [] => e
  match parseCIDR (goTrimSpace e.Value) with
  | none =>
    match defs with
    | d :: _ => (d, e)
    | [] => (ptr, e)
  | some v => (v, e)

/-- `BindTime` from `namespace.go`: the default is formatted with the generic
`time.Time.String`, while parsing uses the RFC 3339 grammar. -/
def bindTime (env : EnvMap) (n : Namespace) (name : String) (ptr : GoTime)
    (defs : List GoTime) : GoTime × Env :=
  let e := n.new name
  let e :=
    match env e.Name with
    | some val => { e with Value := val }
    | none =>
      match defs with
      | d :: _ => { e with Value := timeGoString d }
      | [] => e
  match timeParseRFC3339Nano (goTrimSpace e.Value) with
  | none =>
    match defs with
    | d :: _ => (d, e)
    | [] => (ptr, e)
  | some v => (v, e)

/-- `BindDuration` from `namespace.go`, over the parametric duration
library. -/
def bindDuration (L : GoDurationLib) (env : EnvMap) (n : Namespace) (name : String)
    (ptr : L.D) (defs : List L.D) : L.D × Env :=
  let e := n.new name
  let e :=
    match env e.Name with
    | some val => { e with Value := val }
    | none =>
      match defs with
      | d :: _ => { e with Value := L.format d }
      | [] => e
  match L.parse (goTrimSpace e.Value) with
  | none =>
    match defs with
    | d :: _ => (d, e)
    | [] => (ptr, e)
  | some v => (v, e)

theorem charOfNat_toNat (n : Nat) (h : n < 55296) : (Char.ofNat n).toNat = n := by
  unfold Char.ofNat
  rw [dif_pos (Or.inl h)]
  rfl

theorem upChar_idem (c : Char) : upChar (upChar c) = upChar c := by
  unfold upChar
  by_cases h : 97 ≤ c.toNat ∧ c.toNat ≤ 122
  · rw [if_pos h, charOfNat_toNat _ (by omega), if_neg (by omega)]
  · rw [if_neg h, if_neg h]

theorem charDigit_digitChar (n : Nat) (h : n < 10) : charDigit (digitChar n) = some n := by
  interval_cases n <;> rfl

theorem digitChar_toNat (n : Nat) (h : n < 10) :
    48 ≤ (digitChar n).toNat ∧ (digitChar n).toNat ≤ 57 := by
  interval_cases n <;> exact (by decide)

theorem natToDigitsAux_eq (n : Nat) :
    ∀ f acc, n < f → natToDigitsAux f n acc = natToDigits n ++ acc := by
  induction n using Nat.strong_induction_on with
  | _ n ih =>
    intro f acc hf
    match f with
    | 0 => omega
    | f' + 1 =>
      by_cases h10 : n < 10
      · simp [natToDigitsAux, natToDigits, h10]
      · have hdiv : n / 10 < n := Nat.div_lt_self (by omega) (by omega)
        have hstep : natToDigitsAux (f' + 1) n acc
            = natToDigitsAux f' (n / 10) (digitChar (n % 10) :: acc) := by
          simp [natToDigitsAux, h10]
        have hstep2 : natToDigits n = natToDigits (n / 10) ++ [digitChar (n % 10)] := by
          have : natToDigits n = natToDigitsAux n (n / 10) (digitChar (n % 10) :: []) := by
            simp [natToDigits, natToDigitsAux, h10]
          rw [this, ih (n / 10) hdiv n (digitChar (n % 10) :: []) (by omega)]
        rw [hstep, ih (n / 10) hdiv f' (digitChar (n % 10) :: acc) (by omega), hstep2,
          List.append_assoc]
        rfl

theorem natToDigits_recur (n : Nat) (h : 10 ≤ n) :
    natToDigits n = natToDigits (n / 10) ++ [digitChar (n % 10)] := by
  have hdiv : n / 10 < n := Nat.div_lt_self (by omega) (by omega)
  have : natToDigits n = natToDigitsAux n (n / 10) (digitChar (n % 10) :: []) := by
    simp [natToDigits, natToDigitsAux, Nat.not_lt.mpr h]
  rw [this, natToDigitsAux_eq (n / 10) n (digitChar (n % 10) :: []) (by omega)]

theorem natToDigits_small (n : Nat) (h : n < 10) : natToDigits n = [digitChar n] := by
  simp [natToDigits, natToDigitsAux, h]

theorem natToDigits_ne_nil (n : Nat) : natToDigits n ≠ [] := by
  by_cases h : n < 10
  · rw [natToDigits_small n h]; simp
  · rw [natToDigits_recur n (by omega)]; simp

theorem natToDigits_mem (n : Nat) :
    ∀ c ∈ natToDigits n, 48 ≤ c.toNat ∧ c.toNat ≤ 57 := by
  induction n using Nat.strong_induction_on with
  | _ n ih =>
    by_cases h : n < 10
    · rw [natToDigits_small n h]
      intro c hc
      rw [List.mem_singleton] at hc
      subst hc
      exact digitChar_toNat n h
    · rw [natToDigits_recur n (by omega)]
      intro c hc
      rcases List.mem_append.mp hc with h1 | h1
      · exact ih (n / 10) (Nat.div_lt_self (by omega) (by omega)) c h1
      · rw [List.mem_singleton] at h1
        subst h1
        exact digitChar_toNat (n % 10) (Nat.mod_lt _ (by omega))

theorem natToDigits_length_le (k : Nat) :
    ∀ n, n < 10 ^ k → 1 ≤ k → (natToDigits n).length ≤ k := by
  induction k with
  | zero => omega
  | succ k ihk =>
    intro n hn _
    by_cases h : n < 10
    · rw [natToDigits_small n h]; simp
    · rw [natToDigits_recur n (by omega)]
      have hk : 1 ≤ k := by
        by_contra hk0
        have : k = 0 := by omega
        subst this
        simp [pow_succ] at hn
        omega
      have : n / 10 < 10 ^ k := by
        rw [Nat.div_lt_iff_lt_mul (by omega)]
        calc n < 10 ^ (k + 1) := hn
        _ = 10 ^ k * 10 := by ring
      have := ihk (n / 10) this hk
      simp [List.length_append]
      omega

theorem natToDigits_length_ge (k : Nat) :
    ∀ n, 10 ^ k ≤ n → k + 1 ≤ (natToDigits n).length := by
  induction k with
  | zero =>
    intro n _
    have := natToDigits_ne_nil n
    have : (natToDigits n).length ≠ 0 := by
      simpa [List.length_eq_zero] using this
    omega
  | succ k ihk =>
    intro n hn
    have h10 : 10 ≤ n := by
      have h1 : 10 ^ 1 ≤ 10 ^ (k + 1) := Nat.pow_le_pow_right (by omega) (by omega)
      simpa using le_trans h1 hn
    rw [natToDigits_recur n h10]
    have : 10 ^ k ≤ n / 10 := by
      rw [Nat.le_div_iff_mul_le (by omega)]
      calc 10 ^ k * 10 = 10 ^ (k + 1) := by ring
      _ ≤ n := hn
    have := ihk (n / 10) this
    simp [List.length_append]
    omega

theorem natToDigits_head_ne_zero (n : Nat) (hn : n ≠ 0) :
    ∀ c cs, natToDigits n = c :: cs → c ≠ '0' := by
  induction n using Nat.strong_induction_on with
  | _ n ih =>
    intro c cs heq
    by_cases h : n < 10
    · rw [natToDigits_small n h] at heq
      injection heq with h1 _
      rw [← h1]
      interval_cases n <;> first | omega | decide
    · rw [natToDigits_recur n (by omega)] at heq
      have hne := natToDigits_ne_nil (n / 10)
      match h2 : natToDigits (n / 10) with
      | [] => exact absurd h2 hne
      | c' :: cs' =>
        rw [h2] at heq
        simp only [List.cons_append] at heq
        injection heq with h1 _
        rw [← h1]
        exact ih (n / 10) (Nat.div_lt_self (by omega) (by omega)) (by omega) c' cs' h2

theorem parseDigitsAux_append (a : Nat) (xs ys : List Char) :
    parseDigitsAux a (xs ++ ys)
      = (parseDigitsAux a xs).bind (fun v => parseDigitsAux v ys) := by
  induction xs generalizing a with
  | nil => simp [parseDigitsAux]
  | cons c cs ih =>
    simp only [List.cons_append, parseDigitsAux]
    match charDigit c with
    | some d => simp [ih]
    | none => simp

theorem parseDigitsAux_natToDigits (n : Nat) :
    ∀ a, parseDigitsAux a (natToDigits n) = some (a * 10 ^ (natToDigits n).length + n) := by
  induction n using Nat.strong_induction_on with
  | _ n ih =>
    intro a
    by_cases h : n < 10
    · rw [natToDigits_small n h]
      simp [parseDigitsAux, charDigit_digitChar n h]
    · rw [natToDigits_recur n (by omega)]
      rw [parseDigitsAux_append]
      rw [ih (n / 10) (Nat.div_lt_self (by omega) (by omega)) a]
      simp only [Option.some_bind]
      have hm : n % 10 < 10 := Nat.mod_lt _ (by omega)
      have hstep : parseDigitsAux (a * 10 ^ (natToDigits (n / 10)).length + n / 10)
          [digitChar (n % 10)]
          = some ((a * 10 ^ (natToDigits (n / 10)).length + n / 10) * 10 + n % 10) := by
        simp [parseDigitsAux, charDigit_digitChar (n % 10) hm]
      rw [hstep]
      congr 1
      simp only [List.length_append, List.length_cons, List.length_nil, Nat.zero_add]
      calc (a * 10 ^ (natToDigits (n / 10)).length + n / 10) * 10 + n % 10
          = a * (10 ^ (natToDigits (n / 10)).length * 10) + (n / 10 * 10 + n % 10) := by ring
        _ = a * 10 ^ ((natToDigits (n / 10)).length + 1) + n := by
            rw [pow_succ]; omega

theorem parseDigits_natToDigits (n : Nat) : parseDigits (natToDigits n) = some n := by
  match h : natToDigits n with
  | [] => exact absurd h (natToDigits_ne_nil n)
  | c :: cs =>
    have := parseDigitsAux_natToDigits n 0
    rw [h] at this
    simpa [parseDigits] using this

theorem parseDigitsAux_none_of_bad (c : Char) (hc : charDigit c = none) :
    ∀ l a, c ∈ l → parseDigitsAux a l = none := by
  intro l
  induction l with
  | nil => intro a h; simp at h
  | cons x xs ih =>
    intro a h
    rcases List.mem_cons.mp h with h1 | h1
    · subst h1
      simp [parseDigitsAux, hc]
    · simp only [parseDigitsAux]
      match charDigit x with
      | some d => exact ih _ h1
      | none => rfl

theorem parseDigits_none_of_bad (c : Char) (l : List Char)
    (hc : charDigit c = none) (hmem : c ∈ l) : parseDigits l = none := by
  match l with
  | [] => rfl
  | x :: xs => exact parseDigitsAux_none_of_bad c hc (x :: xs) 0 hmem

theorem charDigit_space : charDigit ' ' = none := by decide

theorem trimRightList_eq_nil (l : List Char) (h : ∀ c ∈ l, isSpaceChar c = true) :
    trimRightList l = [] := by
  unfold trimRightList
  have : l.reverse.dropWhile isSpaceChar = [] := by
    rw [List.dropWhile_eq_nil_iff]
    intro x hx
    exact h x (List.mem_reverse.mp hx)
  rw [this]
  rfl

theorem dropWhile_append_all (p : Char → Bool) (xs ys : List Char)
    (h : ∀ x ∈ xs, p x = true) : (xs ++ ys).dropWhile p = ys.dropWhile p := by
  induction xs with
  | nil => rfl
  | cons x xs ih =>
    have hx := h x (List.mem_cons_self x xs)
    simp only [List.cons_append, List.dropWhile, hx]
    exact ih (fun y hy => h y (List.mem_cons_of_mem x hy))

theorem trimRight_append_spaces (l1 l2 : List Char) (h : ∀ c ∈ l2, isSpaceChar c = true) :
    trimRightList (l1 ++ l2) = trimRightList l1 := by
  unfold trimRightList
  rw [List.reverse_append, dropWhile_append_all isSpaceChar l2.reverse l1.reverse
    (fun c hc => h c (List.mem_reverse.mp hc))]

theorem trim_cons_space (c : Char) (l : List Char) (hc : isSpaceChar c = true) :
    trimLeftList (trimRightList (c :: l)) = trimLeftList (trimRightList l) := by
  by_cases hall : ∀ x ∈ l, isSpaceChar x = true
  · rw [trimRightList_eq_nil l hall, trimRightList_eq_nil (c :: l)]
    intro x hx
    rcases List.mem_cons.mp hx with h | h
    · subst h; exact hc
    · exact hall x h
  · have hne : l.reverse.dropWhile isSpaceChar ≠ [] := by
      rw [Ne, List.dropWhile_eq_nil_iff]
      intro h
      exact hall fun x hx => h x (List.mem_reverse.mpr hx)
    have hstep : trimRightList (c :: l) = c :: trimRightList l := by
      unfold trimRightList
      rw [List.reverse_cons, List.dropWhile_append]
      rw [if_neg (by simpa [List.isEmpty_iff] using hne)]
      simp
    rw [hstep]
    simp [trimLeftList, List.dropWhile, hc]

theorem trim_prefix_spaces (p l : List Char) (h : ∀ c ∈ p, isSpaceChar c = true) :
    trimLeftList (trimRightList (p ++ l)) = trimLeftList (trimRightList l) := by
  induction p with
  | nil => rfl
  | cons c cs ih =>
    rw [List.cons_append, trim_cons_space c (cs ++ l) (h c (List.mem_cons_self c cs))]
    exact ih (fun x hx => h x (List.mem_cons_of_mem c hx))

theorem goTrimSpace_ws (ws1 v ws2 : String)
    (h1 : ∀ c ∈ ws1.data, isSpaceChar c = true)
    (h2 : ∀ c ∈ ws2.data, isSpaceChar c = true) :
    goTrimSpace (ws1 ++ v ++ ws2) = goTrimSpace v := by
  show String.mk (trimLeftList (trimRightList (ws1 ++ v ++ ws2).data)) = _
  rw [String.data_append, String.data_append, trimRight_append_spaces _ _ h2,
    trim_prefix_spaces ws1.data v.data h1]
  rfl

theorem goTrimSpace_pad (v : String) :
    goTrimSpace (" " ++ v ++ " ") = goTrimSpace v := by
  apply goTrimSpace_ws
  all_goals
    intro c hc
    rw [show (" " : String).data = [' '] from rfl] at hc
    simp only [List.mem_singleton] at hc
    subst hc
    decide

theorem goToUpper_append (s t : String) :
    goToUpper (s ++ t) = goToUpper s ++ goToUpper t := by
  unfold goToUpper
  rw [String.data_append, List.map_append]
  rfl

theorem goToUpper_idem (s : String) : goToUpper (goToUpper s) = goToUpper s := by
  unfold goToUpper
  simp only [List.map_map]
  congr 1
  apply List.map_congr_left
  intro c _
  exact upChar_idem c

theorem goToUpper_underscore : goToUpper "_" = "_" := by decide

theorem natToDigits_head_not_sign (n : Nat) (c : Char) (cs : List Char)
    (h : natToDigits n = c :: cs) : ¬(c = '-' ∨ c = '+') := by
  have hc : 48 ≤ c.toNat ∧ c.toNat ≤ 57 :=
    natToDigits_mem n c (h ▸ List.mem_cons_self c cs)
  rintro (rfl | rfl) <;> simp at hc

theorem parseInt64_formatInt (i : Int) (h1 : -(2 ^ 63) ≤ i) (h2 : i < 2 ^ 63) :
    parseInt64 (formatInt i) = some i := by
  by_cases hneg : i < 0
  · have : formatInt i = String.mk ('-' :: natToDigits i.natAbs) := by
      simp [formatInt, hneg]
    rw [this]
    show parseInt64List ('-' :: natToDigits i.natAbs) = some i
    simp only [parseInt64List]
    rw [if_pos (Or.inl trivial : True ∨ ('-' : Char) = '+'), parseDigits_natToDigits]
    simp only [if_true]
    rw [if_pos (by omega : i.natAbs ≤ 2 ^ 63)]
    congr 1
    omega
  · have : formatInt i = String.mk (natToDigits i.toNat) := by
      simp [formatInt, hneg]
    rw [this]
    show parseInt64List (natToDigits i.toNat) = some i
    match hd : natToDigits i.toNat with
    | [] => exact absurd hd (natToDigits_ne_nil _)
    | c :: cs =>
      have hsign := natToDigits_head_not_sign i.toNat c cs hd
      have hcm : ¬ c = '-' := fun hc => hsign (Or.inl hc)
      simp only [parseInt64List]
      rw [if_neg hsign, ← hd, parseDigits_natToDigits]
      simp only [if_neg hcm]
      rw [if_pos (by omega : i.toNat ≤ 2 ^ 63 - 1)]
      congr 1
      omega

theorem parseUint64_formatUint (u : Nat) (h : u < 2 ^ 64) :
    parseUint64 (formatUint u) = some u := by
  simp only [parseUint64, formatUint]
  rw [parseDigits_natToDigits]
  show (if u ≤ 2 ^ 64 - 1 then some u else none) = some u
  rw [if_pos (by omega : u ≤ 2 ^ 64 - 1)]

theorem parseInt64_space (s : String) (h : ' ' ∈ s.data) : parseInt64 s = none := by
  unfold parseInt64
  match hd : s.data with
  | [] => rfl
  | c :: cs =>
    rw [hd] at h
    simp only [parseInt64List]
    by_cases hc : c = '-' ∨ c = '+'
    · have hmem : ' ' ∈ cs := by
        rcases List.mem_cons.mp h with h1 | h1
        · rcases hc with rfl | rfl <;> simp at h1
        · exact h1
      rw [if_pos hc, parseDigits_none_of_bad ' ' cs charDigit_space hmem]
    · rw [if_neg hc, parseDigits_none_of_bad ' ' (c :: cs) charDigit_space h]

theorem parseUint64_space (s : String) (h : ' ' ∈ s.data) : parseUint64 s = none := by
  simp only [parseUint64]
  rw [parseDigits_none_of_bad ' ' s.data charDigit_space h]

theorem spaceChar_props (c : Char) (h : isSpaceChar c = true) :
    charDigit c = none ∧ ¬ c = '-' ∧ ¬ c = '+' := by
  unfold isSpaceChar at h
  simp only [Bool.or_eq_true, decide_eq_true_eq] at h
  rcases h with ((((h | h) | h) | h) | h) | h <;> subst h <;>
    exact ⟨by decide, by decide, by decide⟩

theorem parseInt64_ws (s : String) (c : Char) (hc : c ∈ s.data)
    (hsp : isSpaceChar c = true) : parseInt64 s = none := by
  obtain ⟨hdig, hminus, hplus⟩ := spaceChar_props c hsp
  unfold parseInt64
  match hd : s.data with
  | [] => rfl
  | x :: xs =>
    rw [hd] at hc
    simp only [parseInt64List]
    by_cases hx : x = '-' ∨ x = '+'
    · have hmem : c ∈ xs := by
        rcases List.mem_cons.mp hc with h1 | h1
        · subst h1
          rcases hx with h2 | h2
          · exact absurd h2 hminus
          · exact absurd h2 hplus
        · exact h1
      rw [if_pos hx, parseDigits_none_of_bad c xs hdig hmem]
    · rw [if_neg hx, parseDigits_none_of_bad c (x :: xs) hdig hc]

theorem parseUint64_ws (s : String) (c : Char) (hc : c ∈ s.data)
    (hsp : isSpaceChar c = true) : parseUint64 s = none := by
  obtain ⟨hdig, _, _⟩ := spaceChar_props c hsp
  simp only [parseUint64]
  rw [parseDigits_none_of_bad c s.data hdig hc]

theorem parseGoBool_formatBool (b : Bool) : parseGoBool (formatBool b) = some b := by
  cases b <;> decide

theorem splitOnChar_no_sep (sep : Char) (l : List Char) (h : sep ∉ l) :
    splitOnChar sep l = [l] := by
  induction l with
  | nil => rfl
  | cons c cs ih =>
    have hc : ¬ c = sep := fun hcc => h (hcc ▸ List.mem_cons_self c cs)
    have := ih (fun hm => h (List.mem_cons_of_mem c hm))
    simp only [splitOnChar, this]
    rw [if_neg hc]

theorem splitOnChar_append (sep : Char) (xs ys : List Char) (h : sep ∉ xs) :
    splitOnChar sep (xs ++ sep :: ys) = xs :: splitOnChar sep ys := by
  induction xs with
  | nil =>
    simp [splitOnChar]
  | cons c cs ih =>
    have hc : ¬ c = sep := fun hcc => h (hcc ▸ List.mem_cons_self c cs)
    have hrec := ih (fun hm => h (List.mem_cons_of_mem c hm))
    simp only [List.cons_append, splitOnChar]
    rw [if_neg hc]
    simp only [List.append_eq]
    rw [hrec]

theorem notMem_natToDigits (c : Char) (n : Nat)
    (h : ¬(48 ≤ c.toNat ∧ c.toNat ≤ 57)) : c ∉ natToDigits n :=
  fun hmem => h (natToDigits_mem n c hmem)

theorem parseOctet_natToDigits (n : Nat) (h : n ≤ 255) :
    parseOctet (natToDigits n) = some n := by
  simp only [parseOctet, parseDigits_natToDigits]
  rw [if_pos]
  refine ⟨h, ?_⟩
  by_cases h0 : n = 0
  · subst h0
    left
    rw [natToDigits_small 0 (by omega)]
    rfl
  · right
    match hd : natToDigits n with
    | [] => exact absurd hd (natToDigits_ne_nil n)
    | c :: cs =>
      have := natToDigits_head_ne_zero n h0 c cs hd
      simp [this]

theorem parseIPList_ipString (ip : GoIP) (h1 : ip.o1 ≤ 255) (h2 : ip.o2 ≤ 255)
    (h3 : ip.o3 ≤ 255) (h4 : ip.o4 ≤ 255) :
    parseIPList (ipString ip).data = some ip := by
  have hdot : ∀ n : Nat, '.' ∉ natToDigits n := fun n =>
    notMem_natToDigits '.' n (by decide)
  have hdata : (ipString ip).data
      = natToDigits ip.o1 ++ '.' :: (natToDigits ip.o2 ++ '.' :: (natToDigits ip.o3
        ++ '.' :: natToDigits ip.o4)) := by
    unfold ipString
    simp [List.cons_append]
  rw [parseIPList, hdata, splitOnChar_append '.' _ _ (hdot _),
    splitOnChar_append '.' _ _ (hdot _), splitOnChar_append '.' _ _ (hdot _),
    splitOnChar_no_sep '.' _ (hdot _)]
  simp only [List.map_cons, List.map_nil]
  rw [parseOctet_natToDigits _ h1, parseOctet_natToDigits _ h2,
    parseOctet_natToDigits _ h3, parseOctet_natToDigits _ h4]

theorem parseIP_ipString (ip : GoIP) (h1 : ip.o1 ≤ 255) (h2 : ip.o2 ≤ 255)
    (h3 : ip.o3 ≤ 255) (h4 : ip.o4 ≤ 255) : parseIP (ipString ip) = some ip :=
  parseIPList_ipString ip h1 h2 h3 h4

theorem mem_ipString (c : Char) (ip : GoIP) (hc : c ∈ (ipString ip).data) :
    c = '.' ∨ (48 ≤ c.toNat ∧ c.toNat ≤ 57) := by
  have hdata : (ipString ip).data
      = natToDigits ip.o1 ++ '.' :: (natToDigits ip.o2 ++ '.' :: (natToDigits ip.o3
        ++ '.' :: natToDigits ip.o4)) := by
    unfold ipString
    simp [List.cons_append]
  rw [hdata] at hc
  simp only [List.mem_append, List.mem_cons] at hc
  rcases hc with h | h | h | h | h | h | h
  · exact Or.inr (natToDigits_mem _ c h)
  · exact Or.inl h
  · exact Or.inr (natToDigits_mem _ c h)
  · exact Or.inl h
  · exact Or.inr (natToDigits_mem _ c h)
  · exact Or.inl h
  · exact Or.inr (natToDigits_mem _ c h)

theorem parseCIDR_ipnetString (nt : GoIPNet) (h1 : nt.ip.o1 ≤ 255)
    (h2 : nt.ip.o2 ≤ 255) (h3 : nt.ip.o3 ≤ 255) (h4 : nt.ip.o4 ≤ 255)
    (hones : nt.ones ≤ 32) (hmask : maskIP nt.ones nt.ip = nt.ip) :
    parseCIDR (ipnetString nt) = some nt := by
  have hslash : '/' ∉ (ipString nt.ip).data := by
    intro hm
    rcases mem_ipString '/' nt.ip hm with h | h
    · exact absurd h (by decide)
    · revert h; decide
  have hslash2 : '/' ∉ natToDigits nt.ones :=
    notMem_natToDigits '/' nt.ones (by decide)
  have hdata : (ipnetString nt).data
      = (ipString nt.ip).data ++ '/' :: natToDigits nt.ones := by
    simp [ipnetString, String.data_append]
  rw [parseCIDR, hdata, splitOnChar_append '/' _ _ hslash,
    splitOnChar_no_sep '/' _ hslash2]
  simp only
  rw [parseIPList_ipString nt.ip h1 h2 h3 h4, parseDigits_natToDigits]
  simp only
  rw [if_pos hones, hmask]

theorem padDigits_length (w n : Nat) (h : n < 10 ^ w) (hw : 1 ≤ w) :
    (padDigits w n).length = w := by
  have hle := natToDigits_length_le w n h hw
  simp [padDigits, List.length_append, List.length_replicate]
  omega

theorem padDigits_mem (w n : Nat) :
    ∀ c ∈ padDigits w n, 48 ≤ c.toNat ∧ c.toNat ≤ 57 := by
  intro c hc
  rcases List.mem_append.mp hc with h | h
  · have := List.eq_of_mem_replicate h
    subst this
    exact (by decide)
  · exact natToDigits_mem n c h

theorem exists_two (l : List Char) (h : l.length = 2) : ∃ a b, l = [a, b] := by
  match l with
  | [a, b] => exact ⟨a, b, rfl⟩

theorem exists_four (l : List Char) (h : l.length = 4) : ∃ a b c d, l = [a, b, c, d] := by
  match l with
  | [a, b, c, d] => exact ⟨a, b, c, d, rfl⟩

theorem take2Digits_run (a b : Char) (r : List Char)
    (ha : 48 ≤ a.toNat ∧ a.toNat ≤ 57) (hb : 48 ≤ b.toNat ∧ b.toNat ≤ 57) :
    ∃ v, take2Digits (a :: b :: r) = some (v, r) := by
  refine ⟨(a.toNat - 48) * 10 + (b.toNat - 48), ?_⟩
  simp [take2Digits, charDigit, ha, hb]

theorem take4Digits_run (a b c d : Char) (r : List Char)
    (ha : 48 ≤ a.toNat ∧ a.toNat ≤ 57) (hb : 48 ≤ b.toNat ∧ b.toNat ≤ 57)
    (hc : 48 ≤ c.toNat ∧ c.toNat ≤ 57) (hd : 48 ≤ d.toNat ∧ d.toNat ≤ 57) :
    ∃ v, take4Digits (a :: b :: c :: d :: r) = some (v, r) := by
  refine ⟨((((a.toNat - 48) * 10 + (b.toNat - 48)) * 10 + (c.toNat - 48)) * 10
    + (d.toNat - 48)), ?_⟩
  simp [take4Digits, charDigit, ha, hb, hc, hd]

set_option maxHeartbeats 2000000 in
/-- The RFC 3339 parser rejects any input whose date part is followed by a
space instead of `T` — the shape `time.Time.String` always produces. -/
theorem timeParseList_dateSpace (y mo da : Nat) (hy : y ≤ 9999)
    (hmo : mo ≤ 99) (hda' : da ≤ 99) (TAIL : List Char) :
    timeParseList (padDigits 4 y ++ '-' :: (padDigits 2 mo ++ '-'
      :: (padDigits 2 da ++ ' ' :: TAIL))) = none := by
  obtain ⟨a, b, c, d, hY⟩ := exists_four (padDigits 4 y)
    (padDigits_length 4 y (by omega) (by omega))
  obtain ⟨m1, m2, hM⟩ := exists_two (padDigits 2 mo)
    (padDigits_length 2 mo (by omega) (by omega))
  obtain ⟨d1, d2, hD⟩ := exists_two (padDigits 2 da)
    (padDigits_length 2 da (by omega) (by omega))
  have hda : ∀ c' ∈ padDigits 4 y, 48 ≤ c'.toNat ∧ c'.toNat ≤ 57 := padDigits_mem 4 y
  rw [hY] at hda
  have hdm : ∀ c' ∈ padDigits 2 mo, 48 ≤ c'.toNat ∧ c'.toNat ≤ 57 := padDigits_mem 2 mo
  rw [hM] at hdm
  have hdd : ∀ c' ∈ padDigits 2 da, 48 ≤ c'.toNat ∧ c'.toNat ≤ 57 := padDigits_mem 2 da
  rw [hD] at hdd
  rw [hY, hM, hD]
  simp only [List.cons_append, List.nil_append]
  unfold timeParseList
  obtain ⟨vy, hvy⟩ := take4Digits_run a b c d
    ('-' :: m1 :: m2 :: '-' :: d1 :: d2 :: ' ' :: TAIL)
    (hda a (by simp)) (hda b (by simp)) (hda c (by simp)) (hda d (by simp))
  simp only [hvy]
  simp only [show expectCh '-' ('-' :: m1 :: m2 :: '-' :: d1 :: d2 :: ' ' :: TAIL)
      = some (m1 :: m2 :: '-' :: d1 :: d2 :: ' ' :: TAIL) from by simp [expectCh]]
  obtain ⟨vm, hvm⟩ := take2Digits_run m1 m2 ('-' :: d1 :: d2 :: ' ' :: TAIL)
    (hdm m1 (by simp)) (hdm m2 (by simp))
  simp only [hvm]
  simp only [show expectCh '-' ('-' :: d1 :: d2 :: ' ' :: TAIL) = some (d1 :: d2 :: ' ' :: TAIL)
    from by simp [expectCh]]
  obtain ⟨vd, hvd⟩ := take2Digits_run d1 d2 (' ' :: TAIL) (hdd d1 (by simp)) (hdd d2 (by simp))
  simp only [hvd]
  simp only [show expectCh 'T' (' ' :: TAIL) = none from by simp [expectCh]]

theorem timeGoString_data (t : GoTime) : (timeGoString t).data
    = padDigits 4 t.year ++ '-' :: (padDigits 2 t.month ++ '-'
      :: (padDigits 2 t.day ++ ' ' :: (padDigits 2 t.hour ++ ':'
      :: (padDigits 2 t.minute ++ ':' :: (padDigits 2 t.second ++ fracList t.nsec
        ++ ' ' :: (offsetList t.offMin ++ ' ' :: t.zone.data)))))) := by
  unfold timeGoString
  rfl

/-- The generic textual form produced by `time.Time.String` never re-parses
under the RFC 3339 grammar. -/
theorem timeParse_timeGoString (t : GoTime) (h : t.WF) :
    timeParseRFC3339Nano (timeGoString t) = none := by
  obtain ⟨hy1, hy2, hmo1, hmo2, hda1, hda2, hhh, hmi, hss, hns, ho1, ho2⟩ := h
  unfold timeParseRFC3339Nano
  rw [timeGoString_data]
  exact timeParseList_dateSpace t.year t.month t.day (by omega) (by omega) (by omega) _

theorem isSpaceChar_false (c : Char) (h : 33 ≤ c.toNat) : isSpaceChar c = false := by
  unfold isSpaceChar
  have h1 : ¬ c = ' ' := by rintro rfl; revert h; decide
  have h2 : ¬ c = '\t' := by rintro rfl; revert h; decide
  have h3 : ¬ c = '\n' := by rintro rfl; revert h; decide
  have h4 : ¬ c = '\r' := by rintro rfl; revert h; decide
  have h5 : ¬ c = Char.ofNat 11 := by rintro rfl; revert h; decide
  have h6 : ¬ c = Char.ofNat 12 := by rintro rfl; revert h; decide
  simp [h1, h2, h3, h4, h5, h6]

theorem trimLeft_cons_nonspace (c : Char) (l : List Char) (h : isSpaceChar c = false) :
    trimLeftList (c :: l) = c :: l := by
  simp [trimLeftList, List.dropWhile, h]

theorem trimRight_append_keep (l1 l2 : List Char) (h : ∃ c ∈ l2, isSpaceChar c = false) :
    trimRightList (l1 ++ l2) = l1 ++ trimRightList l2 := by
  have hne : l2.reverse.dropWhile isSpaceChar ≠ [] := by
    rw [Ne, List.dropWhile_eq_nil_iff]
    intro hall
    obtain ⟨c, hc, hf⟩ := h
    have := hall c (List.mem_reverse.mpr hc)
    rw [hf] at this
    exact Bool.false_ne_true this
  unfold trimRightList
  rw [List.reverse_append, List.dropWhile_append,
    if_neg (by simpa [List.isEmpty_iff] using hne)]
  rw [List.reverse_append, List.reverse_reverse]

theorem timeGoString_split (t : GoTime) :
    (timeGoString t).data = timeHead t ++ timeTail t := by
  rw [timeGoString_data]
  unfold timeHead timeTail
  simp [List.append_assoc]

/-- Trimming the `time.Time.String` form of a well-formed time keeps the
date-space-time shape that the RFC 3339 parser rejects. -/
theorem timeParse_trim_timeGoString (t : GoTime) (h : t.WF) :
    timeParseRFC3339Nano (goTrimSpace (timeGoString t)) = none := by
  obtain ⟨hy1, hy2, hmo1, hmo2, hda1, hda2, hhh, hmi, hss, hns, ho1, ho2⟩ := h
  obtain ⟨a, b, c, d, hY⟩ := exists_four (padDigits 4 t.year)
    (padDigits_length 4 t.year (by omega) (by omega))
  obtain ⟨g1, g2, hH⟩ := exists_two (padDigits 2 t.hour)
    (padDigits_length 2 t.hour (by omega) (by omega))
  have hwit : ∃ c' ∈ timeTail t, isSpaceChar c' = false := by
    refine ⟨g1, ?_, ?_⟩
    · unfold timeTail
      rw [hH]
      simp
    · have := padDigits_mem 2 t.hour g1 (by rw [hH]; simp)
      exact isSpaceChar_false g1 (by omega)
  have htrim : (goTrimSpace (timeGoString t)).data
      = trimLeftList (timeHead t ++ trimRightList (timeTail t)) := by
    show trimLeftList (trimRightList (timeGoString t).data) = _
    rw [timeGoString_split, trimRight_append_keep _ _ hwit]
  have hcons : timeHead t ++ trimRightList (timeTail t)
      = a :: b :: c :: d :: '-' :: (padDigits 2 t.month ++ '-'
        :: (padDigits 2 t.day ++ ' ' :: trimRightList (timeTail t))) := by
    unfold timeHead
    rw [hY]
    simp [List.append_assoc]
  have hdig := padDigits_mem 4 t.year a (by rw [hY]; simp)
  have hnsp : isSpaceChar a = false := isSpaceChar_false a (by omega)
  unfold timeParseRFC3339Nano
  rw [htrim, hcons, trimLeft_cons_nonspace a _ hnsp]
  rw [show (a :: b :: c :: d :: '-' :: (padDigits 2 t.month ++ '-'
      :: (padDigits 2 t.day ++ ' ' :: trimRightList (timeTail t))))
    = padDigits 4 t.year ++ '-' :: (padDigits 2 t.month ++ '-'
      :: (padDigits 2 t.day ++ ' ' :: trimRightList (timeTail t))) from by rw [hY]; simp]
  exact timeParseList_dateSpace t.year t.month t.day (by omega) (by omega) (by omega) _

theorem new_Value (n : Namespace) (label : String) : (n.new label).Value = "" := rfl

theorem parseInt64_empty : parseInt64 "" = none := rfl

theorem parseUint64_empty : parseUint64 "" = none := rfl

theorem parseGoBool_empty : parseGoBool "" = none := by decide

theorem parseIP_empty : parseIP "" = none := by decide

theorem parseCIDR_empty : parseCIDR "" = none := by decide

theorem timeParse_empty : timeParseRFC3339Nano "" = none := rfl

theorem goTrimSpace_empty : goTrimSpace "" = "" := rfl

theorem bindInt_absent_nodef (env : EnvMap) (n : Namespace) (label : String) (p : Int)
    (h : env ((n.new label).Name) = none) : bindInt env n label p [] = (p, n.new label) := by
  simp [bindInt, h, new_Value, parseInt64_empty]

theorem bindUint_absent_nodef (env : EnvMap) (n : Namespace) (label : String) (p : Nat)
    (h : env ((n.new label).Name) = none) : bindUint env n label p [] = (p, n.new label) := by
  simp [bindUint, h, new_Value, parseUint64_empty]

theorem bindFloat_absent_nodef (F : GoFloatLib) (env : EnvMap) (n : Namespace)
    (label : String) (p : F.F) (h : env ((n.new label).Name) = none) :
    bindFloat F env n label p [] = (p, n.new label) := by
  simp [bindFloat, h, new_Value, F.parse_empty]

theorem bindBool_absent_nodef (env : EnvMap) (n : Namespace) (label : String) (p : Bool)
    (h : env ((n.new label).Name) = none) : bindBool env n label p [] = (p, n.new label) := by
  simp [bindBool, h, new_Value, parseGoBool_empty]

theorem bindIP_absent_nodef (env : EnvMap) (n : Namespace) (label : String) (p : GoIP)
    (h : env ((n.new label).Name) = none) : bindIP env n label p [] = (p, n.new label) := by
  simp [bindIP, h, new_Value, goTrimSpace_empty, parseIP_empty]

theorem bindIPNet_absent_nodef (env : EnvMap) (n : Namespace) (label : String) (p : GoIPNet)
    (h : env ((n.new label).Name) = none) : bindIPNet env n label p [] = (p, n.new label) := by
  simp [bindIPNet, h, new_Value, goTrimSpace_empty, parseCIDR_empty]

theorem bindTime_absent_nodef (env : EnvMap) (n : Namespace) (label : String) (p : GoTime)
    (h : env ((n.new label).Name) = none) : bindTime env n label p [] = (p, n.new label) := by
  simp [bindTime, h, new_Value, goTrimSpace_empty, timeParse_empty]

theorem bindDuration_absent_nodef (Du : GoDurationLib) (env : EnvMap) (n : Namespace)
    (label : String) (p : Du.D) (h : env ((n.new label).Name) = none) :
    bindDuration Du env n label p [] = (p, n.new label) := by
  simp [bindDuration, h, new_Value, goTrimSpace_empty, Du.parse_empty]

theorem bindString_absent_nodef (env : EnvMap) (n : Namespace) (label : String) (p : String)
    (h : env ((n.new label).Name) = none) : bindString env n label p [] = ("", n.new label) := by
  simp [bindString, h, new_Value]

/-- C1 (counterexample): for the string bind, with the variable absent and no
default, the destination is not left at its pre-call value: a pre-call value
`"prev"` is overwritten with the empty string. -/
theorem c1_counterexample :
    (bindString (fun _ => none) (NewNamespace "app") "host" "prev" []).1 = ""
    ∧ ¬ (bindString (fun _ => none) (NewNamespace "app") "host" "prev" []).1 = "prev" := by
  decide

/-- C1 (amended): when the derived variable is absent and no default is
supplied, every typed bind operation (integer, unsigned, float, boolean, IP,
IP network, timestamp, duration) leaves the destination at its pre-call value
and returns the record with an empty value; the string bind returns the same
record but writes the empty string into the destination. -/
theorem c1_absent_no_default_frame (F : GoFloatLib) (Du : GoDurationLib) (env : EnvMap)
    (n : Namespace) (label : String) (h : env ((n.new label).Name) = none)
    (ps : String) (pi : Int) (pu : Nat) (pf : F.F) (pb : Bool) (pip : GoIP)
    (pn : GoIPNet) (pt : GoTime) (pd : Du.D) :
    bindInt env n label pi [] = (pi, n.new label)
    ∧ bindUint env n label pu [] = (pu, n.new label)
    ∧ bindFloat F env n label pf [] = (pf, n.new label)
    ∧ bindBool env n label pb [] = (pb, n.new label)
    ∧ bindIP env n label pip [] = (pip, n.new label)
    ∧ bindIPNet env n label pn [] = (pn, n.new label)
    ∧ bindTime env n label pt [] = (pt, n.new label)
    ∧ bindDuration Du env n label pd [] = (pd, n.new label)
    ∧ bindString env n label ps [] = ("", n.new label)
    ∧ (n.new label).Value = "" :=
  ⟨bindInt_absent_nodef env n label pi h, bindUint_absent_nodef env n label pu h,
   bindFloat_absent_nodef F env n label pf h, bindBool_absent_nodef env n label pb h,
   bindIP_absent_nodef env n label pip h, bindIPNet_absent_nodef env n label pn h,
   bindTime_absent_nodef env n label pt h, bindDuration_absent_nodef Du env n label pd h,
   bindString_absent_nodef env n label ps h, new_Value n label⟩

theorem c1_absent_no_default_frame_witness :
    bindInt (fun _ => none) (NewNamespace "app") "port" 7 []
      = (7, (NewNamespace "app").new "port")
    ∧ bindString (fun _ => none) (NewNamespace "app") "port" "x" []
      = ("", (NewNamespace "app").new "port") := by
  have h := c1_absent_no_default_frame boolFloatLib unitDurationLib (fun _ => none)
    (NewNamespace "app") "port" rfl "x" 7 0 true true ⟨0, 0, 0, 0⟩ ⟨⟨0, 0, 0, 0⟩, 0⟩
    ⟨1, 1, 1, 0, 0, 0, 0, 0, "UTC"⟩ ()
  exact ⟨h.1, h.2.2.2.2.2.2.2.2.1⟩

theorem parseInt64_formatInt_cases (d : Int) :
    parseInt64 (formatInt d) = some d ∨ parseInt64 (formatInt d) = none := by
  by_cases h1 : -(2 ^ 63) ≤ d
  · by_cases h2 : d < 2 ^ 63
    · exact Or.inl (parseInt64_formatInt d h1 h2)
    · right
      have hneg : ¬ d < 0 := by omega
      have hfmt : formatInt d = String.mk (natToDigits d.toNat) := by
        simp [formatInt, hneg]
      rw [hfmt]
      show parseInt64List (natToDigits d.toNat) = none
      match hd : natToDigits d.toNat with
      | [] => exact absurd hd (natToDigits_ne_nil _)
      | c :: cs =>
        have hsign := natToDigits_head_not_sign d.toNat c cs hd
        have hcm : ¬ c = '-' := fun hc => hsign (Or.inl hc)
        simp only [parseInt64List]
        rw [if_neg hsign, ← hd, parseDigits_natToDigits]
        simp only [if_neg hcm]
        rw [if_neg (by omega : ¬ d.toNat ≤ 2 ^ 63 - 1)]
  · right
    have hneg : d < 0 := by omega
    have hfmt : formatInt d = String.mk ('-' :: natToDigits d.natAbs) := by
      simp [formatInt, hneg]
    rw [hfmt]
    show parseInt64List ('-' :: natToDigits d.natAbs) = none
    simp only [parseInt64List]
    rw [if_pos (Or.inl trivial : True ∨ ('-' : Char) = '+'), parseDigits_natToDigits]
    simp only [if_true]
    rw [if_neg (by omega : ¬ d.natAbs ≤ 2 ^ 63)]

theorem parseUint64_formatUint_cases (u : Nat) :
    parseUint64 (formatUint u) = some u ∨ parseUint64 (formatUint u) = none := by
  by_cases h : u < 2 ^ 64
  · exact Or.inl (parseUint64_formatUint u h)
  · right
    simp only [parseUint64, formatUint]
    rw [parseDigits_natToDigits]
    show (if u ≤ 2 ^ 64 - 1 then some u else none) = none
    rw [if_neg (by omega)]

theorem goTrimSpace_eq_self (s : String) (h : ∀ c ∈ s.data, isSpaceChar c = false) :
    goTrimSpace s = s := by
  have hdrop : ∀ l : List Char, (∀ c ∈ l, isSpaceChar c = false)
      → l.dropWhile isSpaceChar = l := by
    intro l hl
    match l with
    | [] => rfl
    | c :: cs =>
      have := hl c (List.mem_cons_self c cs)
      simp [List.dropWhile, this]
  show String.mk (trimLeftList (trimRightList s.data)) = s
  unfold trimLeftList trimRightList
  rw [hdrop _ (fun c hc => h c (List.mem_reverse.mp hc)), List.reverse_reverse, hdrop _ h]

theorem goTrimSpace_ipString (ip : GoIP) : goTrimSpace (ipString ip) = ipString ip := by
  apply goTrimSpace_eq_self
  intro c hc
  rcases mem_ipString c ip hc with h | h
  · subst h; decide
  · exact isSpaceChar_false c (by omega)

theorem parseOctet_natToDigits_gen (o : Nat) :
    parseOctet (natToDigits o) = if o ≤ 255 then some o else none := by
  by_cases h : o ≤ 255
  · rw [if_pos h]
    exact parseOctet_natToDigits o h
  · rw [if_neg h]
    simp only [parseOctet, parseDigits_natToDigits]
    rw [if_neg (fun hc => h hc.1)]

theorem parseIPList_ipString_gen (ip : GoIP) :
    parseIPList (ipString ip).data = some ip ∨ parseIPList (ipString ip).data = none := by
  by_cases hall : ip.o1 ≤ 255 ∧ ip.o2 ≤ 255 ∧ ip.o3 ≤ 255 ∧ ip.o4 ≤ 255
  · exact Or.inl (parseIPList_ipString ip hall.1 hall.2.1 hall.2.2.1 hall.2.2.2)
  · right
    have hdot : ∀ n : Nat, '.' ∉ natToDigits n := fun n =>
      notMem_natToDigits '.' n (by decide)
    have hdata : (ipString ip).data
        = natToDigits ip.o1 ++ '.' :: (natToDigits ip.o2 ++ '.' :: (natToDigits ip.o3
          ++ '.' :: natToDigits ip.o4)) := by
      unfold ipString
      simp [List.cons_append]
    rw [parseIPList, hdata, splitOnChar_append '.' _ _ (hdot _),
      splitOnChar_append '.' _ _ (hdot _), splitOnChar_append '.' _ _ (hdot _),
      splitOnChar_no_sep '.' _ (hdot _)]
    simp only [List.map_cons, List.map_nil]
    rw [parseOctet_natToDigits_gen, parseOctet_natToDigits_gen,
      parseOctet_natToDigits_gen, parseOctet_natToDigits_gen]
    by_cases h1 : ip.o1 ≤ 255
    · by_cases h2 : ip.o2 ≤ 255
      · by_cases h3 : ip.o3 ≤ 255
        · by_cases h4 : ip.o4 ≤ 255
          · exact absurd ⟨h1, h2, h3, h4⟩ hall
          · simp [h1, h2, h3, h4]
        · simp [h1, h2, h3]
      · simp [h1, h2]
    · simp [h1]

theorem parseIP_ipString_cases (ip : GoIP) :
    parseIP (ipString ip) = some ip ∨ parseIP (ipString ip) = none :=
  parseIPList_ipString_gen ip

theorem mem_ipnetString (c : Char) (nt : GoIPNet) (hc : c ∈ (ipnetString nt).data) :
    33 ≤ c.toNat := by
  have hdata : (ipnetString nt).data = (ipString nt.ip).data ++ '/' :: natToDigits nt.ones := by
    simp [ipnetString, String.data_append]
  rw [hdata] at hc
  rcases List.mem_append.mp hc with h | h
  · rcases mem_ipString c nt.ip h with h' | h'
    · subst h'; decide
    · omega
  · rcases List.mem_cons.mp h with h' | h'
    · subst h'; decide
    · have := natToDigits_mem nt.ones c h'
      omega

theorem goTrimSpace_ipnetString (nt : GoIPNet) :
    goTrimSpace (ipnetString nt) = ipnetString nt := by
  apply goTrimSpace_eq_self
  intro c hc
  exact isSpaceChar_false c (mem_ipnetString c nt hc)

theorem parseCIDR_ipnetString_cases (nt : GoIPNet) :
    parseCIDR (ipnetString nt) = some ⟨maskIP nt.ones nt.ip, nt.ones⟩
    ∨ parseCIDR (ipnetString nt) = none := by
  have hslash : '/' ∉ (ipString nt.ip).data := by
    intro hm
    rcases mem_ipString '/' nt.ip hm with h | h
    · exact absurd h (by decide)
    · revert h; decide
  have hslash2 : '/' ∉ natToDigits nt.ones :=
    notMem_natToDigits '/' nt.ones (by decide)
  have hdata : (ipnetString nt).data
      = (ipString nt.ip).data ++ '/' :: natToDigits nt.ones := by
    simp [ipnetString, String.data_append]
  rw [parseCIDR, hdata, splitOnChar_append '/' _ _ hslash,
    splitOnChar_no_sep '/' _ hslash2]
  simp only
  rcases parseIPList_ipString_gen nt.ip with hip | hip
  · rw [hip, parseDigits_natToDigits]
    simp only
    by_cases hones : nt.ones ≤ 32
    · rw [if_pos hones]
      exact Or.inl rfl
    · rw [if_neg hones]
      exact Or.inr rfl
  · rw [hip]
    exact Or.inr rfl

theorem bindInt_absent_def_dest (env : EnvMap) (n : Namespace) (label : String) (p d : Int)
    (ds : List Int) (h : env ((n.new label).Name) = none) :
    (bindInt env n label p (d :: ds)).1 = d := by
  simp only [bindInt, h]
  rcases parseInt64_formatInt_cases d with hc | hc <;> simp [hc]

theorem bindUint_absent_def_dest (env : EnvMap) (n : Namespace) (label : String) (p d : Nat)
    (ds : List Nat) (h : env ((n.new label).Name) = none) :
    (bindUint env n label p (d :: ds)).1 = d := by
  simp only [bindUint, h]
  rcases parseUint64_formatUint_cases d with hc | hc <;> simp [hc]

theorem bindFloat_absent_def_dest (F : GoFloatLib) (env : EnvMap) (n : Namespace)
    (label : String) (p d : F.F) (ds : List F.F) (h : env ((n.new label).Name) = none) :
    (bindFloat F env n label p (d :: ds)).1 = d := by
  simp only [bindFloat, h]
  simp [F.round_trip d]

theorem bindBool_absent_def_dest (env : EnvMap) (n : Namespace) (label : String) (p d : Bool)
    (ds : List Bool) (h : env ((n.new label).Name) = none) :
    (bindBool env n label p (d :: ds)).1 = d := by
  simp only [bindBool, h]
  simp [parseGoBool_formatBool d]

theorem bindString_absent_def_dest (env : EnvMap) (n : Namespace) (label : String)
    (p d : String) (ds : List String) (h : env ((n.new label).Name) = none) :
    (bindString env n label p (d :: ds)).1 = d := by
  simp [bindString, h]

theorem bindIP_absent_def_dest (env : EnvMap) (n : Namespace) (label : String) (p d : GoIP)
    (ds : List GoIP) (h : env ((n.new label).Name) = none) :
    (bindIP env n label p (d :: ds)).1 = d := by
  simp only [bindIP, h]
  rcases parseIP_ipString_cases d with hc | hc <;> simp [goTrimSpace_ipString, hc]

theorem bindIPNet_absent_def_dest (env : EnvMap) (n : Namespace) (label : String)
    (p d : GoIPNet) (ds : List GoIPNet) (h : env ((n.new label).Name) = none)
    (hmask : maskIP d.ones d.ip = d.ip) :
    (bindIPNet env n label p (d :: ds)).1 = d := by
  simp only [bindIPNet, h]
  rcases parseCIDR_ipnetString_cases d with hc | hc
  · rw [hmask] at hc
    simp [goTrimSpace_ipnetString, hc]
  · simp [goTrimSpace_ipnetString, hc]

theorem bindTime_absent_def_dest (env : EnvMap) (n : Namespace) (label : String)
    (p d : GoTime) (ds : List GoTime) (h : env ((n.new label).Name) = none)
    (hwf : d.WF) : (bindTime env n label p (d :: ds)).1 = d := by
  simp only [bindTime, h]
  simp [timeParse_trim_timeGoString d hwf]

theorem bindDuration_absent_def_dest (Du : GoDurationLib) (env : EnvMap) (n : Namespace)
    (label : String) (p d : Du.D) (ds : List Du.D) (h : env ((n.new label).Name) = none) :
    (bindDuration Du env n label p (d :: ds)).1 = d := by
  simp only [bindDuration, h]
  simp [Du.format_trim d, Du.round_trip d]

/-- C2 (counterexample): with the variable absent and a supplied IP-network
default whose address has host bits set (`1.2.3.4/24`), the destination does
not receive the default but its masked network `1.2.3.0/24`. -/
theorem c2_counterexample :
    ¬ (bindIPNet (fun _ => none) (NewNamespace "app") "net" ⟨⟨0, 0, 0, 0⟩, 0⟩
        [⟨⟨1, 2, 3, 4⟩, 24⟩]).1 = ⟨⟨1, 2, 3, 4⟩, 24⟩
    ∧ (bindIPNet (fun _ => none) (NewNamespace "app") "net" ⟨⟨0, 0, 0, 0⟩, 0⟩
        [⟨⟨1, 2, 3, 4⟩, 24⟩]).1 = ⟨⟨1, 2, 3, 0⟩, 24⟩ := by
  decide

/-- C2 (amended): with the variable absent and a default `d` supplied, the
destination equals `d` after the call for every type — string, integer,
unsigned, float, boolean, IP, timestamp, duration — and for IP networks
whenever the default is a canonical (masked) network; an unmasked IPNet
default receives its masked network instead. -/
theorem c2_absent_default (F : GoFloatLib) (Du : GoDurationLib) (env : EnvMap)
    (n : Namespace) (label : String) (h : env ((n.new label).Name) = none)
    (ps ds : String) (pi di : Int) (pu du : Nat) (pf df : F.F) (pb db : Bool)
    (pip dip : GoIP) (pn dn : GoIPNet) (pt dt : GoTime) (pd dd : Du.D)
    (hmask : maskIP dn.ones dn.ip = dn.ip) (hwf : dt.WF) :
    (bindString env n label ps [ds]).1 = ds
    ∧ (bindInt env n label pi [di]).1 = di
    ∧ (bindUint env n label pu [du]).1 = du
    ∧ (bindFloat F env n label pf [df]).1 = df
    ∧ (bindBool env n label pb [db]).1 = db
    ∧ (bindIP env n label pip [dip]).1 = dip
    ∧ (bindIPNet env n label pn [dn]).1 = dn
    ∧ (bindTime env n label pt [dt]).1 = dt
    ∧ (bindDuration Du env n label pd [dd]).1 = dd :=
  ⟨bindString_absent_def_dest env n label ps ds [] h,
   bindInt_absent_def_dest env n label pi di [] h,
   bindUint_absent_def_dest env n label pu du [] h,
   bindFloat_absent_def_dest F env n label pf df [] h,
   bindBool_absent_def_dest env n label pb db [] h,
   bindIP_absent_def_dest env n label pip dip [] h,
   bindIPNet_absent_def_dest env n label pn dn [] h hmask,
   bindTime_absent_def_dest env n label pt dt [] h hwf,
   bindDuration_absent_def_dest Du env n label pd dd [] h⟩

theorem c2_absent_default_witness :
    (bindInt (fun _ => none) (NewNamespace "app") "max retries" 0 [3]).1 = 3
    ∧ (bindTime (fun _ => none) (NewNamespace "app") "start" ⟨1, 1, 1, 0, 0, 0, 0, 0, "UTC"⟩
        [⟨2009, 11, 10, 23, 0, 0, 0, 0, "UTC"⟩]).1 = ⟨2009, 11, 10, 23, 0, 0, 0, 0, "UTC"⟩ := by
  have h := c2_absent_default boolFloatLib unitDurationLib (fun _ => none)
    (NewNamespace "app") "max retries" rfl "a" "b" 0 3 0 4 true true false true
    ⟨9, 9, 9, 9⟩ ⟨1, 2, 3, 4⟩ ⟨⟨0, 0, 0, 0⟩, 0⟩ ⟨⟨10, 0, 0, 0⟩, 8⟩
    ⟨1, 1, 1, 0, 0, 0, 0, 0, "UTC"⟩ ⟨2009, 11, 10, 23, 0, 0, 0, 0, "UTC"⟩ () ()
    (by decide) (by decide)
  exact ⟨h.2.1, h.2.2.2.2.2.2.2.1⟩

/-- C3: for the integer, unsigned, float, boolean, IP, IP-network and
duration types, parsing the formatted form of a valid in-range value yields
the value again, where `format` is the serialization applied to supplied
defaults and `parse` the rule applied to environment strings (IP values up to
`net.IP.Equal`; networks must be canonical masked networks). -/
theorem c3_round_trip (F : GoFloatLib) (Du : GoDurationLib) :
    (∀ i : Int, -(2 ^ 63) ≤ i → i < 2 ^ 63 → parseInt64 (formatInt i) = some i)
    ∧ (∀ u : Nat, u < 2 ^ 64 → parseUint64 (formatUint u) = some u)
    ∧ (∀ x : F.F, F.parse (F.format x) = some x)
    ∧ (∀ b : Bool, parseGoBool (formatBool b) = some b)
    ∧ (∀ ip : GoIP, ip.o1 ≤ 255 → ip.o2 ≤ 255 → ip.o3 ≤ 255 → ip.o4 ≤ 255
        → parseIP (ipString ip) = some ip)
    ∧ (∀ nt : GoIPNet, nt.ip.o1 ≤ 255 → nt.ip.o2 ≤ 255 → nt.ip.o3 ≤ 255 → nt.ip.o4 ≤ 255
        → nt.ones ≤ 32 → maskIP nt.ones nt.ip = nt.ip → parseCIDR (ipnetString nt) = some nt)
    ∧ (∀ x : Du.D, Du.parse (Du.format x) = some x) :=
  ⟨parseInt64_formatInt, parseUint64_formatUint, F.round_trip, parseGoBool_formatBool,
   parseIP_ipString, parseCIDR_ipnetString, Du.round_trip⟩

theorem c3_round_trip_witness :
    parseInt64 (formatInt (-5)) = some (-5)
    ∧ parseUint64 (formatUint 7) = some 7
    ∧ parseGoBool (formatBool true) = some true
    ∧ parseIP (ipString ⟨192, 168, 0, 1⟩) = some ⟨192, 168, 0, 1⟩
    ∧ parseCIDR (ipnetString ⟨⟨10, 0, 0, 0⟩, 8⟩) = some ⟨⟨10, 0, 0, 0⟩, 8⟩
    ∧ boolFloatLib.parse (boolFloatLib.format true) = some true
    ∧ unitDurationLib.parse (unitDurationLib.format ()) = some () := by
  have h := c3_round_trip boolFloatLib unitDurationLib
  exact ⟨h.1 (-5) (by decide) (by decide), h.2.1 7 (by decide), h.2.2.2.1 true,
    h.2.2.2.2.1 ⟨192, 168, 0, 1⟩ (by decide) (by decide) (by decide) (by decide),
    h.2.2.2.2.2.1 ⟨⟨10, 0, 0, 0⟩, 8⟩ (by decide) (by decide) (by decide) (by decide)
      (by decide) (by decide),
    h.2.2.1 true, h.2.2.2.2.2.2 ()⟩

/-- C6: `BindBool` accepts exactly `"1"`/`"true"` (binding `true`) and
`"0"`/`"false"` (binding `false`), compared case-insensitively after
trimming; every other present string falls back to the default when one is
supplied and leaves the destination untouched when none is. -/
theorem c6_bool_acceptance (env : EnvMap) (n : Namespace) (label : String) (v : String)
    (h : env ((n.new label).Name) = some v) (p d : Bool) :
    ((goToLower (goTrimSpace v) = "1" ∨ goToLower (goTrimSpace v) = "true")
      → (bindBool env n label p []).1 = true ∧ (bindBool env n label p [d]).1 = true)
    ∧ ((goToLower (goTrimSpace v) = "0" ∨ goToLower (goTrimSpace v) = "false")
      → (bindBool env n label p []).1 = false ∧ (bindBool env n label p [d]).1 = false)
    ∧ (¬ goToLower (goTrimSpace v) = "1" → ¬ goToLower (goTrimSpace v) = "true"
      → ¬ goToLower (goTrimSpace v) = "0" → ¬ goToLower (goTrimSpace v) = "false"
      → (bindBool env n label p [d]).1 = d ∧ (bindBool env n label p []).1 = p) := by
  refine ⟨?_, ?_, ?_⟩
  · intro hcase
    have hp : parseGoBool v = some true := by
      simp only [parseGoBool]
      rw [if_pos hcase]
    constructor <;> simp [bindBool, h, hp]
  · intro hcase
    have hne : ¬ (goToLower (goTrimSpace v) = "1" ∨ goToLower (goTrimSpace v) = "true") := by
      rcases hcase with h0 | h0 <;> rw [h0] <;> decide
    have hp : parseGoBool v = some false := by
      simp only [parseGoBool]
      rw [if_neg hne, if_pos hcase]
    constructor <;> simp [bindBool, h, hp]
  · intro h1 h2 h3 h4
    have hp : parseGoBool v = none := by
      simp only [parseGoBool]
      rw [if_neg (by tauto), if_neg (by tauto)]
    constructor <;> simp [bindBool, h, hp]

theorem c6_bool_acceptance_witness :
    (bindBool (fun _ => some "yes") (NewNamespace "app") "enabled" true [true]).1 = true
    ∧ (bindBool (fun _ => some "TRUE") (NewNamespace "app") "enabled" false []).1 = true := by
  constructor
  · exact ((c6_bool_acceptance (fun _ => some "yes") (NewNamespace "app") "enabled" "yes"
      rfl true true).2.2 (by decide) (by decide) (by decide) (by decide)).1
  · exact ((c6_bool_acceptance (fun _ => some "TRUE") (NewNamespace "app") "enabled" "TRUE"
      rfl false true).1 (by decide)).1

/-- C7 (counterexample): at prefix `P = "a b"` and label `L = "x"` the
claim's name formula `upper(P) ++ "_" ++ upper(replace(L))` fails (the
prefix's space is normalized to an underscore first), and at `P1 = "a b"`,
`P2 = "a_b"`, `L1 = L2 = "x"` the claimed equivalence — names equal iff
`upper(P1) == upper(P2)` and the normalized labels match — fails: the
derived names coincide while the plain upper-casings differ. -/
theorem c7_counterexample :
    ¬ ((NewNamespace "a b").new "x").Name
        = goToUpper "a b" ++ "_" ++ goToUpper (goReplaceSpace "x")
    ∧ ¬ (((NewNamespace "a b").new "x").Name = ((NewNamespace "a_b").new "x").Name
        ↔ goToUpper "a b" = goToUpper "a_b"
          ∧ goToUpper (goReplaceSpace "x") = goToUpper (goReplaceSpace "x")) := by
  decide

/-- C7 (amended): name derivation is pure and total, and
`NAME = upper(replace(P, " ", "_")) ++ "_" ++ upper(replace(L, " ", "_"))`;
equality of the normalized prefixes and labels is sufficient for name
equality, and two names are equal exactly when the concatenated normalized
forms coincide. -/
theorem c7_name_derivation :
    (∀ P L, ((NewNamespace P).new L).Name
      = goToUpper (goReplaceSpace P) ++ "_" ++ goToUpper (goReplaceSpace L))
    ∧ (∀ P1 P2 L1 L2, goToUpper (goReplaceSpace P1) = goToUpper (goReplaceSpace P2)
        → goToUpper (goReplaceSpace L1) = goToUpper (goReplaceSpace L2)
        → ((NewNamespace P1).new L1).Name = ((NewNamespace P2).new L2).Name)
    ∧ (∀ P1 P2 L1 L2, ((NewNamespace P1).new L1).Name = ((NewNamespace P2).new L2).Name
        ↔ goToUpper (goReplaceSpace P1) ++ "_" ++ goToUpper (goReplaceSpace L1)
          = goToUpper (goReplaceSpace P2) ++ "_" ++ goToUpper (goReplaceSpace L2)) := by
  have key : ∀ P L, ((NewNamespace P).new L).Name
      = goToUpper (goReplaceSpace P) ++ "_" ++ goToUpper (goReplaceSpace L) := by
    intro P L
    show goToUpper (goToUpper (goReplaceSpace P) ++ "_" ++ goReplaceSpace L) = _
    rw [goToUpper_append, goToUpper_append, goToUpper_idem, goToUpper_underscore]
  exact ⟨key, fun P1 P2 L1 L2 h1 h2 => by rw [key, key, h1, h2],
    fun P1 P2 L1 L2 => by rw [key, key]⟩

theorem c7_name_derivation_witness :
    ((NewNamespace "a").new "x y").Name = ((NewNamespace "A").new "x_y").Name :=
  c7_name_derivation.2.1 "a" "A" "x y" "x_y" (by decide) (by decide)

/-- C8: the record's rendering is `NAME=value`, with the value quoted and
escaped through the `strconv.Quote` convention exactly when it contains a
double-quote character, and emitted literally otherwise. -/
theorem c8_render (e : Env) :
    (containsQuote e.Value = true → envString e = e.Name ++ "=" ++ goQuote e.Value)
    ∧ (containsQuote e.Value = false → envString e = e.Name ++ "=" ++ e.Value) := by
  constructor <;> intro h <;> simp [envString, h]

theorem c8_render_witness :
    envString ⟨"N", "a\"b"⟩ = "N" ++ "=" ++ goQuote "a\"b"
    ∧ envString ⟨"N", "ab"⟩ = "N" ++ "=" ++ "ab" :=
  ⟨(c8_render ⟨"N", "a\"b"⟩).1 (by decide), (c8_render ⟨"N", "ab"⟩).2 (by decide)⟩

theorem boolFloatLib_rejects_ws (s : String) (c : Char) (hc : c ∈ s.data)
    (hsp : isSpaceChar c = true) : boolFloatLib.parse s = none := by
  have h1 : ¬ s = "1" := by
    rintro rfl
    rw [show ("1" : String).data = ['1'] from rfl] at hc
    simp only [List.mem_singleton] at hc
    subst hc
    revert hsp
    decide
  have h0 : ¬ s = "0" := by
    rintro rfl
    rw [show ("0" : String).data = ['0'] from rfl] at hc
    simp only [List.mem_singleton] at hc
    subst hc
    revert hsp
    decide
  show (if s = "1" then some true else if s = "0" then some false else none) = none
  rw [if_neg h1, if_neg h0]

/-- C9: `BindInt`, `BindUint` and `BindFloat` parse the raw value without
trimming, so an otherwise-valid number padded with any leading or trailing
white space fails to parse — the default is bound when supplied, the
destination untouched when not — while the unpadded value binds its parsed
value; `BindBool`, `BindIP`, `BindIPNet`, `BindTime` and `BindDuration` trim
before parsing, so the padded and unpadded values bind the same destination.
Each numeric case assumes only that its own parser accepts the unpadded
value; the float library's whitespace rejection is the documented
`strconv.ParseFloat` contract, taken as a hypothesis. -/
theorem c9_whitespace (F : GoFloatLib) (Du : GoDurationLib) (env1 env2 : EnvMap)
    (n : Namespace) (label v ws1 ws2 : String)
    (hws1 : ∀ c ∈ ws1.data, isSpaceChar c = true)
    (hws2 : ∀ c ∈ ws2.data, isSpaceChar c = true)
    (hpad : ws1.data ≠ [] ∨ ws2.data ≠ [])
    (h1 : env1 ((n.new label).Name) = some (ws1 ++ v ++ ws2))
    (h2 : env2 ((n.new label).Name) = some v)
    (hFws : ∀ s : String, ∀ c ∈ s.data, isSpaceChar c = true → F.parse s = none)
    (pi di : Int) (pu du : Nat) (pf df : F.F) (pb : Bool) (pip : GoIP) (pn : GoIPNet)
    (pt : GoTime) (pd : Du.D) (dsi : List Int) (dsu : List Nat) (dsf : List F.F)
    (dsb : List Bool) (dsip : List GoIP) (dsn : List GoIPNet) (dst : List GoTime)
    (dsd : List Du.D) :
    (∀ i : Int, parseInt64 v = some i →
      (bindInt env1 n label pi [di]).1 = di ∧ (bindInt env1 n label pi []).1 = pi
      ∧ (bindInt env2 n label pi dsi).1 = i)
    ∧ (∀ u : Nat, parseUint64 v = some u →
      (bindUint env1 n label pu [du]).1 = du ∧ (bindUint env1 n label pu []).1 = pu
      ∧ (bindUint env2 n label pu dsu).1 = u)
    ∧ (∀ xf : F.F, F.parse v = some xf →
      (bindFloat F env1 n label pf [df]).1 = df ∧ (bindFloat F env1 n label pf []).1 = pf
      ∧ (bindFloat F env2 n label pf dsf).1 = xf)
    ∧ (bindBool env1 n label pb dsb).1 = (bindBool env2 n label pb dsb).1
    ∧ (bindIP env1 n label pip dsip).1 = (bindIP env2 n label pip dsip).1
    ∧ (bindIPNet env1 n label pn dsn).1 = (bindIPNet env2 n label pn dsn).1
    ∧ (bindTime env1 n label pt dst).1 = (bindTime env2 n label pt dst).1
    ∧ (bindDuration Du env1 n label pd dsd).1 = (bindDuration Du env2 n label pd dsd).1 := by
  obtain ⟨csp, hcmem, hcsp⟩ : ∃ c, c ∈ (ws1 ++ v ++ ws2).data ∧ isSpaceChar c = true := by
    rcases hpad with hp | hp
    · match hh : ws1.data with
      | [] => exact absurd hh hp
      | c :: cs =>
        refine ⟨c, ?_, hws1 c (by rw [hh]; simp)⟩
        rw [String.data_append, String.data_append, hh]
        simp
    · match hh : ws2.data with
      | [] => exact absurd hh hp
      | c :: cs =>
        refine ⟨c, ?_, hws2 c (by rw [hh]; simp)⟩
        rw [String.data_append, hh]
        simp
  have hIntPad : parseInt64 (ws1 ++ v ++ ws2) = none := parseInt64_ws _ csp hcmem hcsp
  have hUintPad : parseUint64 (ws1 ++ v ++ ws2) = none := parseUint64_ws _ csp hcmem hcsp
  have hFloatPad : F.parse (ws1 ++ v ++ ws2) = none := hFws _ csp hcmem hcsp
  have htr : goTrimSpace (ws1 ++ v ++ ws2) = goTrimSpace v :=
    goTrimSpace_ws ws1 v ws2 hws1 hws2
  refine ⟨?_, ?_, ?_, ?_, ?_, ?_, ?_, ?_⟩
  · intro i hvi
    exact ⟨by simp [bindInt, h1, hIntPad], by simp [bindInt, h1, hIntPad],
      by simp [bindInt, h2, hvi]⟩
  · intro u hvu
    exact ⟨by simp [bindUint, h1, hUintPad], by simp [bindUint, h1, hUintPad],
      by simp [bindUint, h2, hvu]⟩
  · intro xf hvf
    exact ⟨by simp [bindFloat, h1, hFloatPad], by simp [bindFloat, h1, hFloatPad],
      by simp [bindFloat, h2, hvf]⟩
  · simp only [bindBool, h1, h2]
    rw [show parseGoBool (ws1 ++ v ++ ws2) = parseGoBool v from by
      unfold parseGoBool
      rw [htr]]
    rcases hpb : parseGoBool v with _ | b
    · rcases dsb with _ | ⟨d, ds⟩ <;> simp
    · simp
  · simp only [bindIP, h1, h2]
    rw [htr]
    rcases hip : parseIP (goTrimSpace v) with _ | w
    · rcases dsip with _ | ⟨d, ds⟩ <;> simp
    · simp
  · simp only [bindIPNet, h1, h2]
    rw [htr]
    rcases hnet : parseCIDR (goTrimSpace v) with _ | w
    · rcases dsn with _ | ⟨d, ds⟩ <;> simp
    · simp
  · simp only [bindTime, h1, h2]
    rw [htr]
    rcases ht : timeParseRFC3339Nano (goTrimSpace v) with _ | w
    · rcases dst with _ | ⟨d, ds⟩ <;> simp
    · simp
  · simp only [bindDuration, h1, h2]
    rw [htr]
    rcases hd : Du.parse (goTrimSpace v) with _ | w
    · rcases dsd with _ | ⟨d, ds⟩ <;> simp
    · simp

theorem c9_whitespace_witness :
    (bindInt (fun _ => some " 1") (NewNamespace "app") "port" 7 [9]).1 = 9
    ∧ (bindBool (fun _ => some " 1") (NewNamespace "app") "port" false []).1
      = (bindBool (fun _ => some "1") (NewNamespace "app") "port" false []).1 := by
  have hws1 : ∀ c ∈ (" " : String).data, isSpaceChar c = true := by
    intro c hc
    rw [show (" " : String).data = [' '] from rfl] at hc
    simp only [List.mem_singleton] at hc
    subst hc
    decide
  have hws2 : ∀ c ∈ ("" : String).data, isSpaceChar c = true := by
    intro c hc
    rw [show ("" : String).data = ([] : List Char) from rfl] at hc
    exact absurd hc (List.not_mem_nil c)
  have h := c9_whitespace boolFloatLib unitDurationLib (fun _ => some " 1")
    (fun _ => some "1") (NewNamespace "app") "port" "1" " " "" hws1 hws2
    (Or.inl (by decide)) rfl rfl boolFloatLib_rejects_ws
    7 9 0 0 true true false ⟨0, 0, 0, 0⟩ ⟨⟨0, 0, 0, 0⟩, 0⟩
    ⟨1, 1, 1, 0, 0, 0, 0, 0, "UTC"⟩ () [] [] [] [] [] [] [] []
  exact ⟨(h.1 1 (by decide)).1, h.2.2.2.1⟩

/-- C10: every scalar bind operation is deterministic and reads the
environment only at the derived name: two calls with the same prefix, label,
defaults and destination, against environments that agree on the derived
name, return equal records and equal destinations. -/
theorem c10_determinism (F : GoFloatLib) (Du : GoDurationLib) (env1 env2 : EnvMap)
    (n : Namespace) (label : String)
    (h : env1 ((n.new label).Name) = env2 ((n.new label).Name))
    (ps : String) (pi : Int) (pu : Nat) (pf : F.F) (pb : Bool) (pip : GoIP) (pn : GoIPNet)
    (pt : GoTime) (pd : Du.D) (dss : List String) (dsi : List Int) (dsu : List Nat)
    (dsf : List F.F) (dsb : List Bool) (dsip : List GoIP) (dsn : List GoIPNet)
    (dst : List GoTime) (dsd : List Du.D) :
    bindString env1 n label ps dss = bindString env2 n label ps dss
    ∧ bindInt env1 n label pi dsi = bindInt env2 n label pi dsi
    ∧ bindUint env1 n label pu dsu = bindUint env2 n label pu dsu
    ∧ bindFloat F env1 n label pf dsf = bindFloat F env2 n label pf dsf
    ∧ bindBool env1 n label pb dsb = bindBool env2 n label pb dsb
    ∧ bindIP env1 n label pip dsip = bindIP env2 n label pip dsip
    ∧ bindIPNet env1 n label pn dsn = bindIPNet env2 n label pn dsn
    ∧ bindTime env1 n label pt dst = bindTime env2 n label pt dst
    ∧ bindDuration Du env1 n label pd dsd = bindDuration Du env2 n label pd dsd := by
  refine ⟨?_, ?_, ?_, ?_, ?_, ?_, ?_, ?_, ?_⟩
  · simp only [bindString, h]
  · simp only [bindInt, h]
  · simp only [bindUint, h]
  · simp only [bindFloat, h]
  · simp only [bindBool, h]
  · simp only [bindIP, h]
  · simp only [bindIPNet, h]
  · simp only [bindTime, h]
  · simp only [bindDuration, h]

theorem c10_determinism_witness :
    bindInt (fun _ => some "5") (NewNamespace "app") "x" 0 []
      = bindInt (fun nm => if nm = "APP_X" then some "5" else none)
          (NewNamespace "app") "x" 0 [] :=
  (c10_determinism boolFloatLib unitDurationLib (fun _ => some "5")
    (fun nm => if nm = "APP_X" then some "5" else none) (NewNamespace "app") "x"
    (by decide) "" 0 0 true true ⟨0, 0, 0, 0⟩ ⟨⟨0, 0, 0, 0⟩, 0⟩
    ⟨1, 1, 1, 0, 0, 0, 0, 0, "UTC"⟩ () [] [] [] [] [] [] [] [] []).2.1

/-- C4: `BindTime` formats a supplied default with the generic
`time.Time.String` layout rather than the RFC 3339 grammar used for parsing:
for the valid timestamp 2009-11-10 23:00:00 UTC, the formatted default fails
to re-parse, the destination receives the typed default through the failure
fallback, and the record's value holds the non-RFC-3339 string. -/
theorem c4_time_format_asymmetry :
    timeGoString ⟨2009, 11, 10, 23, 0, 0, 0, 0, "UTC"⟩ = "2009-11-10 23:00:00 +0000 UTC"
    ∧ timeParseRFC3339Nano "2009-11-10 23:00:00 +0000 UTC" = none
    ∧ (bindTime (fun _ => none) (NewNamespace "app") "start" ⟨1, 1, 1, 0, 0, 0, 0, 0, "UTC"⟩
        [⟨2009, 11, 10, 23, 0, 0, 0, 0, "UTC"⟩]).1 = ⟨2009, 11, 10, 23, 0, 0, 0, 0, "UTC"⟩
    ∧ (bindTime (fun _ => none) (NewNamespace "app") "start" ⟨1, 1, 1, 0, 0, 0, 0, 0, "UTC"⟩
        [⟨2009, 11, 10, 23, 0, 0, 0, 0, "UTC"⟩]).2.Value = "2009-11-10 23:00:00 +0000 UTC" := by
  decide

end Turret
